import Mathlib

/-!
Verification of the core logic of the `timeconverter` widget
(`src/components/TimeZoneConverter.js`).

The development shallowly embeds the component's pure logic:

* the static timezone catalog (source lines 7-12);
* the time-conversion helper `getTimeInTimezone` (lines 91-94), with the
  browser's `Date.prototype.getTimezoneOffset` value carried as an explicit
  parameter, since the source calls it on the current date;
* the event handlers acting on the active/available timezone lists
  (`addTimezone`, `removeTimezone`, `onDragEnd`, `reverseOrder`,
  lines 62-85) and the slider handler (`handleSliderChange`, lines 55-60);
* the share-state codec: `generateShareableLink` builds
  `btoa(JSON.stringify(\x7b time, timezones \x7d))` (lines 96-104) and the
  mount effect decodes `JSON.parse(atob(token))` with truthiness and
  `Array.isArray` checks (lines 33-46).

Platform primitives used by the source (`btoa`/`atob`, `JSON.parse`,
`Date.prototype.toISOString`, `new Date(string)`, `URLSearchParams` value
decoding) are not part of the repository; they are embedded here by
executable models of their standard semantics (WHATWG forgiving-base64,
JSON.org grammar, the ECMAScript date-time string format over the proleptic
Gregorian calendar).  Times are modelled as integer milliseconds since the
epoch (JavaScript time values), and JSON numbers as exact rationals.
-/

/-- A catalog entry, mirroring the object literals of source lines 8-11:
`\x7b id, name, offset \x7d` with a possibly fractional hour offset. -/
structure Timezone where
  id : String
  name : String
  offset : ℚ
deriving DecidableEq, Repr

/-- The static timezone catalog (source lines 7-12). -/
def timezones : List Timezone :=
  [⟨"UTC", "Universal Time Coordinated", 0⟩,
   ⟨"IST", "India Standard Time", 5.5⟩,
   ⟨"EST", "Eastern Standard Time", -5⟩,
   ⟨"PST", "Pacific Standard Time", -8⟩]

/-- The ids of the catalog entries. -/
def catalogIds : List String := timezones.map Timezone.id

/-- `getTimeInTimezone(date, tzOffset)` (source lines 91-94):
`utc = date.getTime() + date.getTimezoneOffset() * 60000` followed by
`new Date(utc + 3600000 * tzOffset)`.  `t` is `date.getTime()` in
milliseconds, `localOffMin` is the value of `date.getTimezoneOffset()`
(minutes, UTC minus local), and the result is the time value of the
returned `Date`, as an exact rational because `tzOffset` may be
fractional. -/
def getTimeInTimezone (t : Int) (localOffMin : Int) (tzOffset : ℚ) : ℚ :=
  ((t + localOffMin * 60000 : Int) : ℚ) + 3600000 * tzOffset

/-- The wall-clock reading a JavaScript environment whose
`getTimezoneOffset` is `localOffMin` displays for a `Date` whose time
value is `x` (e.g. via `toLocaleString`, source line 180): local wall
clock = time value minus offset. -/
def displayedWallClock (x : ℚ) (localOffMin : Int) : ℚ :=
  x - localOffMin * 60000

/-- The slider-relevant component state: `selectedTime` (a time value in
milliseconds) and `sliderValue` (source lines 15, 25). -/
structure TimeSliderState where
  selectedTime : Int
  sliderValue : Int
deriving DecidableEq, Repr

/-- `handleSliderChange` (source lines 55-60): stores the slider value and
sets `selectedTime` to `selectedTime.getTime() + value * 60000`, relative
to the current (already adjusted) `selectedTime`.  `v` is the integer the
source obtains by `parseInt(event.target.value)`. -/
def handleSliderChange (st : TimeSliderState) (v : Int) : TimeSliderState :=
  { sliderValue := v, selectedTime := st.selectedTime + v * 60000 }

/-- The list-typed part of the component state: `activeTimezones` (a list
of catalog ids) and `availableTimezones` (a list of catalog entries),
source lines 16-19. -/
structure ZoneState where
  active : List String
  available : List Timezone
deriving DecidableEq, Repr

/-- The initial zone state (source lines 16-19): active `['UTC', 'IST']`,
available = catalog entries whose id is not active. -/
def initialZoneState : ZoneState :=
  { active := ["UTC", "IST"],
    available := timezones.filter fun tz => !(["UTC", "IST"].contains tz.id) }

/-- `addTimezone` (source lines 62-68): when the select value is truthy
(a nonempty id string), append it to the active list and drop it from the
available list.  No membership or catalog check is performed. -/
def addTimezone (st : ZoneState) (tzId : String) : ZoneState :=
  if tzId ≠ "" then
    { active := st.active ++ [tzId],
      available := st.available.filter fun tz => tz.id ≠ tzId }
  else st

/-- `removeTimezone` (source lines 70-73): filter the id out of the active
list and append `timezones.find(tz => tz.id === tzId)` to the available
list.  When the id is not in the catalog the source appends the
`undefined` returned by `find`; this model appends nothing in that case
(`Option.toList`), which agrees with the source whenever the id is in the
catalog. -/
def removeTimezone (st : ZoneState) (tzId : String) : ZoneState :=
  { active := st.active.filter fun id => id ≠ tzId,
    available := st.available ++ (timezones.find? fun tz => tz.id = tzId).toList }

/-- The list relocation performed by `onDragEnd` (source lines 75-81):
`items.splice(source, 1)` removes the element at `i`, then
`items.splice(dest, 0, item)` re-inserts it at `j`.  For an out-of-range
`i` the source would splice out nothing and insert `undefined`; this model
leaves the list unchanged in that case, which agrees with the source for
in-range indices. -/
def moveItem (l : List String) (i j : Nat) : List String :=
  match l.get? i with
  | none => l
  | some x => (l.eraseIdx i).insertIdx j x

/-- A drag result as delivered by the drag-and-drop library: a source
index and an optional destination index (`null` when dropped outside). -/
structure DragResult where
  sourceIndex : Nat
  destination : Option Nat
deriving DecidableEq, Repr

/-- `onDragEnd` (source lines 75-81): no-op without a destination,
otherwise relocate within the active list. -/
def onDragEnd (st : ZoneState) (r : DragResult) : ZoneState :=
  match r.destination with
  | none => st
  | some j => { st with active := moveItem st.active r.sourceIndex j }

/-- `reverseOrder` (source lines 83-85). -/
def reverseOrder (st : ZoneState) : ZoneState :=
  { st with active := st.active.reverse }

/-- The transitions of the active-zone list state machine (spec section
4.3): add, remove, move, reverse. -/
inductive ZTrans where
  | add (id : String)
  | remove (id : String)
  | move (i j : Nat)
  | reverse
deriving DecidableEq, Repr

/-- One transition step, implemented by the corresponding source
handler. -/
def stepZ (st : ZoneState) : ZTrans → ZoneState
  | .add id => addTimezone st id
  | .remove id => removeTimezone st id
  | .move i j => onDragEnd st ⟨i, some j⟩
  | .reverse => reverseOrder st

/-- The precondition of a transition (spec section 4.3): add only a
catalog id not already active, remove only an active id, move only
between valid indices. -/
def preZ (st : ZoneState) : ZTrans → Bool
  | .add id => catalogIds.contains id && !(st.active.contains id)
  | .remove id => st.active.contains id
  | .move i j => decide (i < st.active.length) && decide (j < st.active.length)
  | .reverse => true

/-- Run a sequence of transitions. -/
def runZ (st : ZoneState) : List ZTrans → ZoneState
  | [] => st
  | tr :: trs => runZ (stepZ st tr) trs

/-- All preconditions hold along a transition sequence. -/
def preAllZ (st : ZoneState) : List ZTrans → Bool
  | [] => true
  | tr :: trs => preZ st tr && preAllZ (stepZ st tr) trs

/-- The active/available invariant: the active list is duplicate-free and
catalog-only, and the available list holds, without duplicates, exactly
the catalog entries whose id is not active. -/
def ZInv (st : ZoneState) : Prop :=
  st.active.Nodup ∧ (∀ id ∈ st.active, id ∈ catalogIds) ∧
    (st.available.map Timezone.id).Nodup ∧
    (∀ tz ∈ st.available, tz ∈ timezones) ∧
    (∀ tz ∈ timezones, (tz ∈ st.available ↔ tz.id ∉ st.active))

instance (st : ZoneState) : Decidable (ZInv st) := by
  unfold ZInv
  infer_instance

/-! ### Proleptic Gregorian calendar arithmetic

Model of the ECMAScript `Date` calendar (YearFromTime / MonthFromTime /
DateFromTime and MakeDay), via the standard civil-from-days /
days-from-civil algorithms over the proleptic Gregorian calendar with a
400-year era of 146097 days. -/

/-- Days from March 1 of a year-of-era to March 1 of year-of-era `yoe`
(0 ≤ yoe ≤ 399): 365 days per year plus Julian leap days minus century
corrections. -/
def dayOffset (yoe : Nat) : Nat := 365 * yoe + yoe / 4 - yoe / 100

/-- The year-of-era containing day-of-era `doe` (0 ≤ doe ≤ 146096). -/
def yoeOf (doe : Nat) : Nat :=
  (doe - doe / 1460 + doe / 36524 - doe / 146096) / 365

/-- Convert a day number (days since 1970-01-01) to a calendar date
(year, month 1-12, day 1-31). -/
def civilFromDays (z : Int) : Int × Nat × Nat :=
  let z' := z + 719468
  let era := z' / 146097
  let doe := (z' % 146097).toNat
  let yoe := yoeOf doe
  let doy := doe - dayOffset yoe
  let mp := (5 * doy + 2) / 153
  let d := doy - (153 * mp + 2) / 5 + 1
  let m := if mp < 10 then mp + 3 else mp - 9
  ((yoe : Int) + era * 400 + (if m ≤ 2 then 1 else 0), m, d)

/-- Convert a calendar date to a day number (days since 1970-01-01),
inverse of `civilFromDays` (the ECMAScript `MakeDay`). -/
def daysFromCivil (y : Int) (m d : Nat) : Int :=
  let y' := y - (if m ≤ 2 then 1 else 0)
  let era := y' / 400
  let yoe := (y' - era * 400).toNat
  let doy := (153 * (if m > 2 then m - 3 else m + 9) + 2) / 5 + d - 1
  let doe := yoe * 365 + yoe / 4 - yoe / 100 + doy
  era * 146097 + (doe : Int) - 719468

/-- Check a boolean predicate on `len` consecutive naturals starting at
`lo`, by linear scan. -/
def chkLin (P : Nat → Bool) (lo : Nat) : Nat → Bool
  | 0 => true
  | n + 1 => P lo && chkLin P (lo + 1) n

/-- Check a boolean predicate on `len` consecutive naturals starting at
`lo`, splitting the range in half down to depth `d` so that evaluation
recursion stays shallow. -/
def chkSplit (P : Nat → Bool) : Nat → Nat → Nat → Bool
  | 0, lo, len => chkLin P lo len
  | d + 1, lo, len =>
    if len ≤ 64 then chkLin P lo len
    else
      let h := len / 2
      chkSplit P d lo h && chkSplit P d (lo + h) (len - h)

/-- Endpoint correctness of `yoeOf` for one year-of-era: `yoeOf` maps the
first and the last day of year `yoe` to `yoe`. -/
def yoeEndpointOk (yoe : Nat) : Bool :=
  (yoeOf (dayOffset yoe) == yoe) && (yoeOf (dayOffset (yoe + 1) - 1) == yoe)

/-- Month/day bounds of the within-year date reconstruction, checked for
one day-of-year `doy` (0-365, March-based). -/
def doyFieldsOk (doy : Nat) : Bool :=
  let mp := (5 * doy + 2) / 153
  let d := doy - (153 * mp + 2) / 5 + 1
  let m := if mp < 10 then mp + 3 else mp - 9
  (1 ≤ m && m ≤ 12) && (1 ≤ d && d ≤ 31)

/-! ### ISO 8601 date-time strings -/

/-- Two-decimal-digit zero-padded rendering (`String(n).padStart(2, '0')`
for `n ≤ 99`). -/
def pad2 (n : Nat) : List Char := [Nat.digitChar (n / 10), Nat.digitChar (n % 10)]

/-- Three-decimal-digit zero-padded rendering. -/
def pad3 (n : Nat) : List Char :=
  [Nat.digitChar (n / 100), Nat.digitChar (n / 10 % 10), Nat.digitChar (n % 10)]

/-- Four-decimal-digit zero-padded rendering. -/
def pad4 (n : Nat) : List Char :=
  [Nat.digitChar (n / 1000), Nat.digitChar (n / 100 % 10),
   Nat.digitChar (n / 10 % 10), Nat.digitChar (n % 10)]

/-- Six-decimal-digit zero-padded rendering (expanded-year format). -/
def pad6 (n : Nat) : List Char :=
  [Nat.digitChar (n / 100000), Nat.digitChar (n / 10000 % 10),
   Nat.digitChar (n / 1000 % 10), Nat.digitChar (n / 100 % 10),
   Nat.digitChar (n / 10 % 10), Nat.digitChar (n % 10)]

/-- `Date.prototype.toISOString` on the time value `t` (milliseconds since
the epoch): `YYYY-MM-DDTHH:mm:ss.sssZ`, with the expanded `±YYYYYY` year
format outside 0-9999. -/
def toISOString (t : Int) : List Char :=
  let days := t / 86400000
  let msod := (t % 86400000).toNat
  let ymd := civilFromDays days
  let yearPart :=
    if 0 ≤ ymd.1 ∧ ymd.1 ≤ 9999 then pad4 ymd.1.toNat
    else if 9999 < ymd.1 then '+' :: pad6 ymd.1.toNat
    else '-' :: pad6 (-ymd.1).toNat
  yearPart ++ '-' :: pad2 ymd.2.1 ++ '-' :: pad2 ymd.2.2 ++
    'T' :: pad2 (msod / 3600000) ++ ':' :: pad2 (msod / 60000 % 60) ++
    ':' :: pad2 (msod / 1000 % 60) ++ '.' :: pad3 (msod % 1000) ++ ['Z']

/-- The numeric value of a decimal digit character. -/
def digitVal (c : Char) : Option Nat :=
  if 48 ≤ c.toNat ∧ c.toNat ≤ 57 then some (c.toNat - 48) else none

/-- Read exactly `n` decimal digits, most significant first, onto the
accumulator `acc`. -/
def readDigits : Nat → Nat → List Char → Option (Nat × List Char)
  | 0, acc, cs => some (acc, cs)
  | n + 1, acc, cs =>
    match cs with
    | [] => none
    | c :: cs' =>
      match digitVal c with
      | none => none
      | some d => readDigits n (acc * 10 + d) cs'

/-- Expect one specific character. -/
def expectCh (c : Char) : List Char → Option (List Char)
  | [] => none
  | c' :: r => if c' = c then some r else none

/-- Parse the year of an ECMAScript date-time string: four digits, or a
sign followed by six digits (`-000000` being invalid). -/
def parseISOYear (cs : List Char) : Option (Int × List Char) :=
  match cs with
  | [] => none
  | c :: r =>
    if c = '+' then
      match readDigits 6 0 r with
      | none => none
      | some (n, r2) => some ((n : Int), r2)
    else if c = '-' then
      match readDigits 6 0 r with
      | none => none
      | some (n, r2) => if n = 0 then none else some (-(n : Int), r2)
    else
      match readDigits 4 0 (c :: r) with
      | none => none
      | some (n, r2) => some ((n : Int), r2)

/-- Validate time fields (`24:00:00.000` is permitted) and assemble
milliseconds within the day. -/
def mkTimeMs (h mi s ms : Nat) (rest : List Char) : Option (Nat × List Char) :=
  if mi ≤ 59 ∧ s ≤ 59 ∧ (h ≤ 23 ∨ (h = 24 ∧ mi = 0 ∧ s = 0 ∧ ms = 0)) then
    some (h * 3600000 + mi * 60000 + s * 1000 + ms, rest)
  else none

/-- Parse `HH:mm[:ss[.sss]]`, returning milliseconds within the day. -/
def parseISOTime (cs : List Char) : Option (Nat × List Char) :=
  match readDigits 2 0 cs with
  | none => none
  | some (h, cs1) =>
    match cs1 with
    | ':' :: cs2 =>
      match readDigits 2 0 cs2 with
      | none => none
      | some (mi, cs3) =>
        match cs3 with
        | ':' :: cs4 =>
          match readDigits 2 0 cs4 with
          | none => none
          | some (s, cs5) =>
            match cs5 with
            | '.' :: cs6 =>
              match readDigits 3 0 cs6 with
              | none => none
              | some (ms, cs7) => mkTimeMs h mi s ms cs7
            | cs6 => mkTimeMs h mi s 0 cs6
        | cs4 => mkTimeMs h mi 0 0 cs4
    | _ => none

/-- Parse `HH:mm` of a numeric offset, in minutes. -/
def parseOffHM (cs : List Char) : Option (Nat × List Char) :=
  match readDigits 2 0 cs with
  | none => none
  | some (h, cs1) =>
    match cs1 with
    | ':' :: cs2 =>
      match readDigits 2 0 cs2 with
      | none => none
      | some (mi, cs3) =>
        if h ≤ 23 ∧ mi ≤ 59 then some (h * 60 + mi, cs3) else none
    | _ => none

/-- Parse a time-zone designator: `Z` or `±HH:mm` (minutes, east
positive). -/
def parseISOOffset : List Char → Option (Int × List Char)
  | 'Z' :: r => some (0, r)
  | '+' :: r =>
    match parseOffHM r with
    | none => none
    | some (m, r2) => some ((m : Int), r2)
  | '-' :: r =>
    match parseOffHM r with
    | none => none
    | some (m, r2) => some (-(m : Int), r2)
  | _ => none

/-- Parse the optional `-MM[-DD]` part after the year (absent parts
default to 1). -/
def parseMD : List Char → Option (Nat × Nat × List Char)
  | '-' :: cs2 =>
    (match readDigits 2 0 cs2 with
     | none => none
     | some (mo, cs3) =>
       match cs3 with
       | '-' :: cs4 =>
         (match readDigits 2 0 cs4 with
          | none => none
          | some (dy, cs5) => some (mo, dy, cs5))
       | cs4 => some (mo, 1, cs4))
  | cs2 => some (1, 1, cs2)

/-- `TimeClip`: a time value is valid within 8.64e15 milliseconds of the
epoch. -/
def clipTv (tv : Int) : Option Int :=
  if -8640000000000000 ≤ tv ∧ tv ≤ 8640000000000000 then some tv else none

/-- Model of `new Date(string)` / `Date.parse` on the ECMAScript
date-time string format `YYYY[-MM[-DD]][THH:mm[:ss[.sss]]TZ]`, with a
mandatory `Z`/`±HH:mm` designator on date-times (the source never
produces offsetless date-times; JavaScript would read those as local
time, and such strings, like every other input JavaScript may fall back
to parsing loosely, are modelled as invalid).  Month and day are
validated at the grammar level (1-12, 1-31).  Returns the time value, or
`none` for an invalid date. -/
def parseISODate (cs : List Char) : Option Int :=
  match parseISOYear cs with
  | none => none
  | some (y, cs1) =>
    match parseMD cs1 with
    | none => none
    | some (mo, dy, cs2) =>
      if 1 ≤ mo ∧ mo ≤ 12 ∧ 1 ≤ dy ∧ dy ≤ 31 then
        match cs2 with
        | [] => clipTv (daysFromCivil y mo dy * 86400000)
        | 'T' :: cs3 =>
          (match parseISOTime cs3 with
           | none => none
           | some (msod, cs4) =>
             match parseISOOffset cs4 with
             | none => none
             | some (offMin, cs5) =>
               match cs5 with
               | [] =>
                 clipTv (daysFromCivil y mo dy * 86400000 + (msod : Int) -
                   offMin * 60000)
               | _ => none)
        | _ => none
      else none

/-! ### Base64 (`btoa` / `atob`)

`btoa` maps a string of code units below 256 to standard base64 with `=`
padding, throwing (`none`) otherwise; `atob` implements WHATWG
forgiving-base64 decoding. -/

/-- The standard base64 alphabet. -/
def b64Alphabet : List Char :=
  "ABCDEFGHIJKLMNOPQRSTUVWXYZabcdefghijklmnopqrstuvwxyz0123456789+/".toList

/-- The base64 character of a sextet value. -/
def b64Char (n : Nat) : Char := b64Alphabet.getD n 'A'

/-- The sextet value of a base64 character. -/
def b64Index (c : Char) : Option Nat := b64Alphabet.findIdx? fun c' => c' == c

/-- The sextet stream of a byte stream: each 3-byte group yields 4
sextets, a trailing 1- or 2-byte group yields 2 or 3. -/
def b64Sextets : List Nat → List Nat
  | [] => []
  | [b0] => [b0 / 4, b0 % 4 * 16]
  | [b0, b1] => [b0 / 4, b0 % 4 * 16 + b1 / 16, b1 % 16 * 4]
  | b0 :: b1 :: b2 :: rest =>
    b0 / 4 :: (b0 % 4 * 16 + b1 / 16) :: (b1 % 16 * 4 + b2 / 64) :: b2 % 64 ::
      b64Sextets rest

/-- The `=` padding of the base64 encoding of a byte stream. -/
def b64PadOf : List Nat → List Char
  | [] => []
  | [_] => ['=', '=']
  | [_, _] => ['=']
  | _ :: _ :: _ :: rest => b64PadOf rest

/-- Base64-encode a byte stream. -/
def encodeB64 (bs : List Nat) : List Char := (b64Sextets bs).map b64Char ++ b64PadOf bs

/-- `btoa`: base64 of the code units of a string; fails
(`InvalidCharacterError`) if a code unit exceeds 255. -/
def btoaStr (cs : List Char) : Option (List Char) :=
  if cs.all (fun c => c.toNat < 256) then some (encodeB64 (cs.map Char.toNat)) else none

/-- ASCII whitespace stripped by forgiving-base64. -/
def isB64Ws (c : Char) : Bool :=
  c = ' ' || c = '\t' || c = '\n' || c = '\x0c' || c = '\r'

/-- Remove up to two trailing `=` characters. -/
def stripPad (cs : List Char) : List Char :=
  let r := cs.reverse
  if r.headD 'A' = '=' then
    (if r.tail.headD 'A' = '=' then r.tail.tail else r.tail).reverse
  else cs

/-- Reassemble bytes from a sextet stream: each 4-sextet group yields 3
bytes, a trailing group of 2 or 3 yields 1 or 2, spare bits being
discarded as in forgiving-base64. -/
def b64Group : List Nat → List Nat
  | c0 :: c1 :: c2 :: c3 :: rest =>
    (c0 * 4 + c1 / 16) :: (c1 % 16 * 16 + c2 / 4) :: (c2 % 4 * 64 + c3) ::
      b64Group rest
  | [c0, c1] => [c0 * 4 + c1 / 16]
  | [c0, c1, c2] => [c0 * 4 + c1 / 16, c1 % 16 * 16 + c2 / 4]
  | _ => []

/-- Translate every character to its sextet value, failing on a
character outside the alphabet. -/
def b64IndexAll : List Char → Option (List Nat)
  | [] => some []
  | c :: r =>
    match b64Index c, b64IndexAll r with
    | some v, some vs => some (v :: vs)
    | _, _ => none

/-- WHATWG forgiving-base64 decode, to bytes: strip ASCII whitespace,
strip padding when the length is a multiple of four, reject a remainder
of one or any character outside the alphabet, regroup sextets into
bytes. -/
def atobBytes (cs : List Char) : Option (List Nat) :=
  let cs1 := cs.filter fun c => !isB64Ws c
  let cs2 := if cs1.length % 4 == 0 then stripPad cs1 else cs1
  if cs2.length % 4 == 1 then none
  else (b64IndexAll cs2).map b64Group

/-- `atob`: forgiving-base64 decode to a string of code units below
256. -/
def atobStr (cs : List Char) : Option (List Char) :=
  (atobBytes cs).map fun bs => bs.map Char.ofNat

/-! ### JSON -/

/-- A JSON value.  Numbers are modelled as exact rationals (JavaScript
would read them as binary doubles; no claim depends on rounding). -/
inductive JVal where
  | jnull
  | jbool (b : Bool)
  | jnum (q : ℚ)
  | jstr (s : List Char)
  | jarr (elems : List JVal)
  | jobj (members : List (List Char × JVal))

/-- JSON insignificant whitespace. -/
def isJsonWs (c : Char) : Bool := c = ' ' || c = '\t' || c = '\n' || c = '\r'

/-- Skip insignificant whitespace. -/
def skipWs (cs : List Char) : List Char := cs.dropWhile isJsonWs

/-- The numeric value of a hexadecimal digit character. -/
def hexVal (c : Char) : Option Nat :=
  if 48 ≤ c.toNat ∧ c.toNat ≤ 57 then some (c.toNat - 48)
  else if 97 ≤ c.toNat ∧ c.toNat ≤ 102 then some (c.toNat - 87)
  else if 65 ≤ c.toNat ∧ c.toNat ≤ 70 then some (c.toNat - 55)
  else none

/-- Parse the body of a JSON string after its opening quote, handling
escape sequences and rejecting raw control characters; returns the
string's characters and the input after the closing quote. -/
def parseStringBody : List Char → Option (List Char × List Char)
  | [] => none
  | c :: r =>
    if c = '"' then some ([], r)
    else if c = '\\' then
      match r with
      | [] => none
      | e :: r2 =>
        if e = '"' then (parseStringBody r2).map fun p => ('"' :: p.1, p.2)
        else if e = '\\' then (parseStringBody r2).map fun p => ('\\' :: p.1, p.2)
        else if e = '/' then (parseStringBody r2).map fun p => ('/' :: p.1, p.2)
        else if e = 'b' then (parseStringBody r2).map fun p => ('\x08' :: p.1, p.2)
        else if e = 'f' then (parseStringBody r2).map fun p => ('\x0c' :: p.1, p.2)
        else if e = 'n' then (parseStringBody r2).map fun p => ('\n' :: p.1, p.2)
        else if e = 'r' then (parseStringBody r2).map fun p => ('\r' :: p.1, p.2)
        else if e = 't' then (parseStringBody r2).map fun p => ('\t' :: p.1, p.2)
        else if e = 'u' then
          match r2 with
          | h1 :: h2 :: h3 :: h4 :: r3 =>
            match hexVal h1, hexVal h2, hexVal h3, hexVal h4 with
            | some a, some b, some c, some d =>
              (parseStringBody r3).map fun p =>
                (Char.ofNat (a * 4096 + b * 256 + c * 16 + d) :: p.1, p.2)
            | _, _, _, _ => none
          | _ => none
        else none
    else if c.toNat < 32 then none
    else (parseStringBody r).map fun p => (c :: p.1, p.2)

/-- Split off a run of decimal digits. -/
def spanDigits : List Char → List Nat × List Char
  | [] => ([], [])
  | c :: r =>
    match digitVal c with
    | some d => let p := spanDigits r; (d :: p.1, p.2)
    | none => ([], c :: r)

/-- The natural number denoted by a digit run. -/
def digitsToNat (ds : List Nat) : Nat := ds.foldl (fun a d => a * 10 + d) 0

/-- Parse an optional exponent part (`e`/`E`, optional sign, digits);
yields 0 when no exponent marker is present. -/
def parseExpPart : List Char → Option (Int × List Char)
  | [] => some (0, [])
  | c :: r =>
    if c = 'e' ∨ c = 'E' then
      let sp : Int × List Char :=
        match r with
        | '+' :: r2 => (1, r2)
        | '-' :: r2 => (-1, r2)
        | r2 => (1, r2)
      let p := spanDigits sp.2
      if p.1 = [] then none else some (sp.1 * (digitsToNat p.1 : Int), p.2)
    else some (0, c :: r)

/-- The rational value of a JSON number with integer digits `intDs`,
fraction digits `fracDs` and exponent `e`: the digits of `intDs ++
fracDs` read as an integer, scaled by ten to the `e - fracDs.length`. -/
def jnumVal (intDs fracDs : List Nat) (e : Int) : ℚ :=
  let mant : Int := (digitsToNat (intDs ++ fracDs) : Int)
  let k : Int := e - (fracDs.length : Int)
  if 0 ≤ k then mkRat (mant * ((Nat.pow 10 k.toNat : Nat) : Int)) 1
  else mkRat mant (Nat.pow 10 (-k).toNat)

/-- Parse an unsigned JSON number (integer part without leading zeros,
optional fraction, optional exponent). -/
def parseNumPos (cs : List Char) : Option (ℚ × List Char) :=
  let ip := spanDigits cs
  if ip.1 = [] then none
  else if 2 ≤ ip.1.length ∧ ip.1.head? = some 0 then none
  else
    match ip.2 with
    | '.' :: r =>
      let fp := spanDigits r
      if fp.1 = [] then none
      else
        match parseExpPart fp.2 with
        | none => none
        | some (e, rest) => some (jnumVal ip.1 fp.1 e, rest)
    | cs2 =>
      match parseExpPart cs2 with
      | none => none
      | some (e, rest) => some (jnumVal ip.1 [] e, rest)

/-- Parse a JSON number. -/
def parseNum : List Char → Option (ℚ × List Char)
  | '-' :: r => (parseNumPos r).map fun p => (-p.1, p.2)
  | cs => parseNumPos cs

/-- Expect a fixed character sequence as a prefix, returning the rest. -/
def expectChars : List Char → List Char → Option (List Char)
  | [], cs => some cs
  | _ :: _, [] => none
  | e :: es, c :: cs => if c = e then expectChars es cs else none

/-- The three syntactic classes of the recursive JSON parser: a value,
the element list of a nonempty array, the member list of a nonempty
object. -/
inductive PK where
  | val
  | elems
  | members
deriving DecidableEq, Repr

/-- Parse one JSON syntactic class (recursion fuelled; `jsonParseTop`
supplies fuel exceeding the input length, which always suffices).  In
mode `.elems` the result is wrapped as `jarr`, in mode `.members` as
`jobj`. -/
def parseJ : Nat → PK → List Char → Option (JVal × List Char)
  | 0, _, _ => none
  | f + 1, .val, cs =>
    match skipWs cs with
    | [] => none
    | c :: r =>
      if c = '"' then (parseStringBody r).map fun p => (JVal.jstr p.1, p.2)
      else if c = '[' then
        match skipWs r with
        | [] => none
        | c2 :: r2 =>
          if c2 = ']' then some (JVal.jarr [], r2)
          else parseJ f .elems (c2 :: r2)
      else if c = '\x7b' then
        match skipWs r with
        | [] => none
        | c2 :: r2 =>
          if c2 = '\x7d' then some (JVal.jobj [], r2)
          else parseJ f .members (c2 :: r2)
      else if c = 'n' then
        match expectChars ['u', 'l', 'l'] r with
        | some r2 => some (JVal.jnull, r2)
        | none => none
      else if c = 't' then
        match expectChars ['r', 'u', 'e'] r with
        | some r2 => some (JVal.jbool true, r2)
        | none => none
      else if c = 'f' then
        match expectChars ['a', 'l', 's', 'e'] r with
        | some r2 => some (JVal.jbool false, r2)
        | none => none
      else (parseNum (c :: r)).map fun p => (JVal.jnum p.1, p.2)
  | f + 1, .elems, cs =>
    match parseJ f .val cs with
    | none => none
    | some (v, r) =>
      match skipWs r with
      | [] => none
      | c :: r2 =>
        if c = ',' then
          match parseJ f .elems r2 with
          | some (JVal.jarr vs, r3) => some (JVal.jarr (v :: vs), r3)
          | _ => none
        else if c = ']' then some (JVal.jarr [v], r2)
        else none
  | f + 1, .members, cs =>
    match skipWs cs with
    | [] => none
    | c :: r =>
      if c = '"' then
        match parseStringBody r with
        | none => none
        | some (k, r1) =>
          match skipWs r1 with
          | [] => none
          | c2 :: r2 =>
            if c2 = ':' then
              match parseJ f .val r2 with
              | none => none
              | some (v, r3) =>
                match skipWs r3 with
                | [] => none
                | c3 :: r4 =>
                  if c3 = ',' then
                    match parseJ f .members r4 with
                    | some (JVal.jobj ms, r5) => some (JVal.jobj ((k, v) :: ms), r5)
                    | _ => none
                  else if c3 = '\x7d' then some (JVal.jobj [(k, v)], r4)
                  else none
            else none
      else none

/-- `JSON.parse`: parse one JSON value covering the whole input (up to
trailing whitespace). -/
def jsonParseTop (cs : List Char) : Option JVal :=
  match parseJ (cs.length + 1) PK.val cs with
  | some (v, r) => if skipWs r = [] then some v else none
  | none => none

/-- The printable 7-bit characters that JSON serialization passes
through unescaped and whose bytes keep the base64 encoding free of `+`
and `/` (codes 62, 63, 126 and 127 are the only 7-bit bytes that can
produce those sextets): everything the serialized state of this
component is built from. -/
def plainChar (c : Char) : Bool :=
  (32 ≤ c.toNat && c.toNat < 126) && c ≠ '"' && c ≠ '\\' &&
    c.toNat ≠ 62 && c.toNat ≠ 63

/-- The JSON value of the serialized share state. -/
def stateJVal (time : List Char) (zones : List (List Char)) : JVal :=
  JVal.jobj [("time".toList, JVal.jstr time),
    ("timezones".toList, JVal.jarr (zones.map JVal.jstr))]

/-! ### The share-state codec and the component boundary -/

/-- `JSON.stringify` escaping of one string character. -/
def escapeJsonChar (c : Char) : List Char :=
  if c = '"' then ['\\', '"']
  else if c = '\\' then ['\\', '\\']
  else if c = '\x08' then ['\\', 'b']
  else if c = '\x09' then ['\\', 't']
  else if c = '\x0a' then ['\\', 'n']
  else if c = '\x0c' then ['\\', 'f']
  else if c = '\x0d' then ['\\', 'r']
  else if c.toNat < 32 then
    ['\\', 'u', '0', '0', Nat.digitChar (c.toNat / 16), Nat.digitChar (c.toNat % 16)]
  else [c]

/-- `JSON.stringify` escaping of a string body. -/
def escapeJson : List Char → List Char
  | [] => []
  | c :: r => escapeJsonChar c ++ escapeJson r

/-- A JSON string literal. -/
def quoteJson (s : List Char) : List Char := '"' :: escapeJson s ++ ['"']

/-- Comma-join rendered pieces. -/
def joinComma : List (List Char) → List Char
  | [] => []
  | [x] => x
  | x :: y :: ys => x ++ ',' :: joinComma (y :: ys)

/-- `JSON.stringify(\x7b time, timezones \x7d)` (source lines 97-101): members
in insertion order, no insignificant whitespace, strings escaped. -/
def stringifyStateJson (time : List Char) (zones : List (List Char)) : List Char :=
  '\x7b' :: "\"time\":".toList ++ quoteJson time ++
    ",\"timezones\":[".toList ++ joinComma (zones.map quoteJson) ++ [']', '\x7d']

/-- The share state of the component (spec section 3): the selected
instant (a time value in milliseconds) and the ordered active zone ids,
exactly the two fields serialized by `generateShareableLink`. -/
structure ShareState where
  time : Int
  timezones : List String
deriving DecidableEq, Repr

/-- The token built by `generateShareableLink` (source lines 96-104):
`btoa(JSON.stringify(\x7b time: selectedTime.toISOString(), timezones:
activeTimezones \x7d))`.  `none` models a `btoa` throw (impossible here
since the serialized text is ASCII). -/
def encodeShareState (s : ShareState) : Option String :=
  (btoaStr (stringifyStateJson (toISOString s.time) (s.timezones.map String.toList))).map
    List.asString

/-- The URL built by `generateShareableLink` (source line 102): the raw
token is interpolated into the query string without URI escaping. -/
def shareableLink (origin pathname tok : String) : String :=
  origin ++ pathname ++ "?state=" ++ tok

/-- The distinct faults the decode branch (source lines 34-41) can raise:
an `InvalidCharacterError` from `atob`, a `SyntaxError` from
`JSON.parse`, a `TypeError` from reading a property of `null`, and the
explicitly thrown `Error('Invalid state format')`. -/
inductive DecodeError where
  | invalidCharacter
  | syntaxError
  | typeError
  | invalidStateFormat
deriving DecidableEq, Repr

/-- The decoded state accepted by the decode branch: the value of the
`time` member and the elements of the `timezones` member. -/
structure DecodedState where
  time : JVal
  timezones : List JVal

/-- Last-wins member lookup, as JavaScript object construction from
duplicate JSON keys. -/
def jlookup (ms : List (List Char × JVal)) (k : List Char) : Option JVal :=
  ms.foldl (fun acc m => if m.1 = k then some m.2 else acc) none

/-- JavaScript property access on a non-null decoded JSON value:
members of objects, `undefined` (`none`) on every other value. -/
def getMem (v : JVal) (k : List Char) : Option JVal :=
  match v with
  | .jobj ms => jlookup ms k
  | _ => none

/-- JavaScript truthiness of a decoded JSON value. -/
def truthyJ : JVal → Bool
  | .jnull => false
  | .jbool b => b
  | .jnum q => decide (q ≠ 0)
  | .jstr s => decide (s ≠ [])
  | .jarr _ => true
  | .jobj _ => true

/-- The decoding pipeline of the mount effect (source lines 34-41):
`JSON.parse(atob(token))`, a `TypeError` if the result is `null`, then
`throw new Error('Invalid state format')` unless `decodedState.time` is
truthy and `decodedState.timezones` is an array.  No further validation
is performed: the `time` member is not checked to parse as a date, and
the `timezones` elements are not checked to be strings, known ids, or
duplicate-free. -/
def decodeState (tok : String) : Except DecodeError DecodedState :=
  match atobStr tok.toList with
  | none => .error .invalidCharacter
  | some txt =>
    match jsonParseTop txt with
    | none => .error .syntaxError
    | some JVal.jnull => .error .typeError
    | some v =>
      match getMem v "time".toList with
      | none => .error .invalidStateFormat
      | some tv =>
        if truthyJ tv then
          match getMem v "timezones".toList with
          | some (JVal.jarr elems) => .ok ⟨tv, elems⟩
          | _ => .error .invalidStateFormat
        else .error .invalidStateFormat

/-- Truncate a rational toward zero (`ToIntegerOrInfinity`). -/
def ratTrunc (q : ℚ) : Int := q.num.tdiv q.den

/-- The time value of `new Date(x)` for a decoded JSON value `x` (source
line 39), `none` modelling an Invalid Date: ISO parsing for strings,
`TimeClip` truncation for numbers, 0/1 for booleans and `null`
(`ToNumber` coercion).  For arrays and objects JavaScript would first
coerce via `toString`; that fallback is modelled as an Invalid Date. -/
def dateFromJVal : JVal → Option Int
  | .jstr s => parseISODate s
  | .jnum q =>
    let n := ratTrunc q
    if -8640000000000000 ≤ n ∧ n ≤ 8640000000000000 then some n else none
  | .jbool b => some (if b then 1 else 0)
  | .jnull => some 0
  | .jarr _ => none
  | .jobj _ => none

/-- The component state touched by the mount effect: the selected time
(`none` for an Invalid Date), the active list as decoded JSON values
(id strings in normal operation), and the available catalog entries. -/
structure AppState where
  selectedTime : Option Int
  activeTimezones : List JVal
  availableTimezones : List Timezone

/-- `decodedState.timezones.includes(tz.id)` (source line 41): strict
equality of each element against an id string, so only string elements
can match. -/
def jincludesId (elems : List JVal) (id : String) : Bool :=
  elems.any fun e =>
    match e with
    | .jstr s => s = id.toList
    | _ => false

/-- The advisory message surfaced on a decode failure (source line 44). -/
def decodeErrorMessage : String :=
  "Failed to load shared configuration. Using default settings."

/-- The component's initial state (source lines 15-19), parametrized by
the mount instant `now` (`new Date()`). -/
def initialAppState (now : Int) : AppState :=
  { selectedTime := some now,
    activeTimezones := ["UTC", "IST"].map fun id => JVal.jstr id.toList,
    availableTimezones := timezones.filter fun tz => !(["UTC", "IST"].contains tz.id) }

/-- The mount effect's state handling (source lines 30-47): read the
`state` query parameter (`none` when absent); a falsy (absent or empty)
token leaves the default state silently; a decodable token installs the
decoded time, the decoded zone list verbatim, and the catalog entries
whose id the decoded list does not include; a failing decode leaves the
default state and surfaces the advisory message.  The decode faults all
precede the first state update, so no partial state is ever installed. -/
def loadFromURL (stateParam : Option String) (now : Int) : AppState × Option String :=
  match stateParam with
  | none => (initialAppState now, none)
  | some tok =>
    if tok = "" then (initialAppState now, none)
    else
      match decodeState tok with
      | .error _ => (initialAppState now, some decodeErrorMessage)
      | .ok d =>
        ({ selectedTime := dateFromJVal d.time,
           activeTimezones := d.timezones,
           availableTimezones :=
             timezones.filter fun tz => !(jincludesId d.timezones tz.id) },
         none)

/-- `application/x-www-form-urlencoded` value decoding as performed by
`URLSearchParams.get` (source lines 31-32) on a query parameter value:
`+` becomes a space and `%XX` a code unit; everything else passes
through. -/
def urlDecodeA : Nat → List Char → List Char
  | 0, cs => cs
  | _ + 1, [] => []
  | f + 1, c :: r =>
    if c = '+' then ' ' :: urlDecodeA f r
    else if c = '%' then
      match r with
      | h1 :: h2 :: r2 =>
        (match hexVal h1, hexVal h2 with
         | some a, some b => Char.ofNat (a * 16 + b) :: urlDecodeA f r2
         | _, _ => '%' :: urlDecodeA f (h1 :: h2 :: r2))
      | r1 => '%' :: urlDecodeA f r1
    else c :: urlDecodeA f r

def urlDecodeValue (cs : List Char) : List Char := urlDecodeA cs.length cs

/-- The 7-bit code points whose bytes keep a base64 encoding inside the
alphanumeric range: below 128 and none of 62, 63, 126, 127 (the only
7-bit bytes whose encoding can emit the sextets 62 or 63, i.e. `+` or
`/`). -/
def safeByteChar (c : Char) : Bool :=
  (c.toNat < 128 && c.toNat ≠ 62) && c.toNat ≠ 63 && c.toNat ≠ 126 && c.toNat ≠ 127

/-- Characters that need no escaping in a URL query value and that
`application/x-www-form-urlencoded` parsing passes through verbatim:
ASCII alphanumerics and `=`. -/
def urlSafeChar (c : Char) : Bool :=
  (65 ≤ c.toNat && c.toNat ≤ 90) || (97 ≤ c.toNat && c.toNat ≤ 122) ||
    (48 ≤ c.toNat && c.toNat ≤ 57) || c = '='

/-! ## Theorems -/

/-! ### Range-checker soundness and calendar facts -/

theorem chkLin_sound (P : Nat → Bool) :
    ∀ len lo, chkLin P lo len = true → ∀ i, i < len → P (lo + i) = true := by
  intro len
  induction len with
  | zero => intro lo _ i hi; omega
  | succ n ih =>
    intro lo h i hi
    simp only [chkLin, Bool.and_eq_true] at h
    rcases Nat.eq_zero_or_pos i with h0 | h0
    · subst h0; simpa using h.1
    · have := ih (lo + 1) h.2 (i - 1) (by omega)
      have heq : lo + 1 + (i - 1) = lo + i := by omega
      rwa [heq] at this

theorem chkSplit_sound (P : Nat → Bool) :
    ∀ d lo len, chkSplit P d lo len = true → ∀ i, i < len → P (lo + i) = true := by
  intro d
  induction d with
  | zero => intro lo len h; exact chkLin_sound P len lo h
  | succ d ih =>
    intro lo len h i hi
    simp only [chkSplit] at h
    by_cases hc : len ≤ 64
    · rw [if_pos hc] at h
      exact chkLin_sound P len lo h i hi
    · rw [if_neg hc, Bool.and_eq_true] at h
      by_cases hl : i < len / 2
      · exact ih lo (len / 2) h.1 i hl
      · have := ih (lo + len / 2) (len - len / 2) h.2 (i - len / 2) (by omega)
        have heq : lo + len / 2 + (i - len / 2) = lo + i := by omega
        rwa [heq] at this

theorem yoeOf_mono_step : ∀ doe, doe + 1 ≤ 146096 → yoeOf doe ≤ yoeOf (doe + 1) := by
  intro doe h
  simp only [yoeOf]
  omega

theorem yoeOf_mono : ∀ a b, a ≤ b → b ≤ 146096 → yoeOf a ≤ yoeOf b := by
  intro a b hab hb
  induction b with
  | zero =>
    have ha : a = 0 := by omega
    subst ha
    exact le_refl _
  | succ n ih =>
    rcases Nat.lt_or_ge a (n + 1) with h | h
    · exact le_trans (ih (by omega) (by omega)) (yoeOf_mono_step n (by omega))
    · have ha : a = n + 1 := by omega
      subst ha
      exact le_refl _

theorem yoeEndpoint_eval : chkSplit yoeEndpointOk 6 0 400 = true := by rfl

theorem yoeEndpoint_ok : ∀ y, y < 400 →
    yoeOf (dayOffset y) = y ∧ yoeOf (dayOffset (y + 1) - 1) = y := by
  intro y hy
  have := chkSplit_sound yoeEndpointOk 6 0 400 yoeEndpoint_eval y hy
  simp only [Nat.zero_add, yoeEndpointOk, Bool.and_eq_true, beq_iff_eq] at this
  exact this

theorem yoeOf_le_399 : ∀ doe, doe ≤ 146096 → yoeOf doe ≤ 399 := by
  intro doe h
  simp only [yoeOf]
  omega

theorem dayOffset_mono : ∀ a b, a ≤ b → dayOffset a ≤ dayOffset b := by
  intro a b hab
  have h1 : a / 4 ≤ b / 4 := Nat.div_le_div_right hab
  have h3 : b / 100 ≤ a / 100 + (b - a) := by omega
  simp only [dayOffset]
  omega

theorem dayOffset_le_doe : ∀ doe, doe ≤ 146096 → dayOffset (yoeOf doe) ≤ doe := by
  intro doe h
  by_contra hc
  push_neg at hc
  set y := yoeOf doe with hy
  have hy399 : y ≤ 399 := yoeOf_le_399 doe h
  have hy0 : 0 < y := by
    by_contra h0
    push_neg at h0
    interval_cases y
    simp [dayOffset] at hc
  have hend := yoeEndpoint_ok (y - 1) (by omega)
  have hle : doe ≤ dayOffset (y - 1 + 1) - 1 := by
    have : y - 1 + 1 = y := by omega
    rw [this]; omega
  have hbd : dayOffset (y - 1 + 1) - 1 ≤ 146096 := by
    have h400 : dayOffset (y - 1 + 1) ≤ dayOffset 400 := dayOffset_mono _ 400 (by omega)
    have : dayOffset 400 = 146096 := by simp [dayOffset]
    omega
  have := yoeOf_mono doe (dayOffset (y - 1 + 1) - 1) hle hbd
  rw [hend.2] at this
  omega

theorem doy_le_365 : ∀ doe, doe ≤ 146096 → doe - dayOffset (yoeOf doe) ≤ 365 := by
  intro doe h
  by_contra hc
  push_neg at hc
  set y := yoeOf doe with hy
  have hy399 : y ≤ 399 := yoeOf_le_399 doe h
  have hstep : dayOffset (y + 1) ≤ dayOffset y + 366 := by
    simp only [dayOffset]; omega
  have hge : dayOffset (y + 1) ≤ doe := by omega
  rcases Nat.lt_or_ge y 399 with h399 | h399
  · have hend := yoeEndpoint_ok (y + 1) (by omega)
    have := yoeOf_mono (dayOffset (y + 1)) doe hge h
    rw [hend.1] at this
    omega
  · have hy' : y = 399 := by omega
    rw [hy'] at hc
    rw [hy'] at hge
    have h400 : dayOffset (399 + 1) = 146096 := by simp [dayOffset]
    have h399v : dayOffset 399 = 145731 := by simp [dayOffset]
    omega

theorem doyFields_eval : chkSplit doyFieldsOk 4 0 366 = true := by rfl

theorem doyFields_ok : ∀ doy, doy ≤ 365 →
    (1 ≤ (if (5 * doy + 2) / 153 < 10 then (5 * doy + 2) / 153 + 3
          else (5 * doy + 2) / 153 - 9) ∧
     (if (5 * doy + 2) / 153 < 10 then (5 * doy + 2) / 153 + 3
          else (5 * doy + 2) / 153 - 9) ≤ 12) ∧
    (1 ≤ doy - (153 * ((5 * doy + 2) / 153) + 2) / 5 + 1 ∧
     doy - (153 * ((5 * doy + 2) / 153) + 2) / 5 + 1 ≤ 31) := by
  intro doy h
  have := chkSplit_sound doyFieldsOk 4 0 366 doyFields_eval doy (by omega)
  simp only [Nat.zero_add, doyFieldsOk, Bool.and_eq_true, decide_eq_true_eq] at this
  constructor
  · constructor
    · exact this.1.1
    · exact this.1.2
  · constructor
    · exact this.2.1
    · exact this.2.2

theorem daysFromCivil_piece (era : Int) (doe yoe doy mp m d : Nat)
    (hdoe : doe ≤ 146096) (hyoe : yoe = yoeOf doe) (hdoy : doy = doe - dayOffset yoe)
    (hmp : mp = (5 * doy + 2) / 153)
    (hm : m = if mp < 10 then mp + 3 else mp - 9)
    (hd : d = doy - (153 * mp + 2) / 5 + 1) :
    daysFromCivil ((yoe : Int) + era * 400 + (if m ≤ 2 then 1 else 0)) m d
      = era * 146097 + (doe : Int) - 719468 := by
  have hA : yoe ≤ 399 := by rw [hyoe]; exact yoeOf_le_399 doe hdoe
  have hB : dayOffset yoe ≤ doe := by rw [hyoe]; exact dayOffset_le_doe doe hdoe
  have hD : doy ≤ 365 := by rw [hdoy, hyoe]; exact doy_le_365 doe hdoe
  simp only [daysFromCivil]
  generalize hY :
    (yoe : Int) + era * 400 + (if m ≤ 2 then (1 : Int) else 0) -
      (if m ≤ 2 then (1 : Int) else 0) = Y
  have hYv : Y = (yoe : Int) + era * 400 := by rw [← hY]; exact add_sub_cancel_right _ _
  have hEra : Y / 400 = era := by omega
  rw [hEra]
  have hYoe : (Y - era * 400).toNat = yoe := by omega
  rw [hYoe]
  simp only [dayOffset] at hB hdoy
  by_cases hmp10 : mp < 10
  · rw [if_pos hmp10] at hm
    split_ifs <;> omega
  · rw [if_neg hmp10] at hm
    split_ifs <;> omega

theorem daysFromCivil_civilFromDays (z : Int) :
    daysFromCivil (civilFromDays z).1 (civilFromDays z).2.1 (civilFromDays z).2.2 = z := by
  have h1 : 0 ≤ (z + 719468) % 146097 := by omega
  have hdoe96 : ((z + 719468) % 146097).toNat ≤ 146096 := by omega
  have hmain := daysFromCivil_piece ((z + 719468) / 146097) ((z + 719468) % 146097).toNat
    _ _ _ _ _ hdoe96 rfl rfl rfl rfl rfl
  exact hmain.trans (by omega)

theorem digitVal_digitChar : ∀ d, d ≤ 9 → digitVal (Nat.digitChar d) = some d := by decide

theorem digitChar_not_sign : ∀ d, d ≤ 9 →
    Nat.digitChar d ≠ '+' ∧ Nat.digitChar d ≠ '-' := by decide

theorem readDigits_pad2 (acc n : Nat) (rest : List Char) (h : n ≤ 99) :
    readDigits 2 acc (pad2 n ++ rest) = some (acc * 100 + n, rest) := by
  simp only [pad2, List.cons_append, List.nil_append, readDigits,
    digitVal_digitChar _ (show n / 10 ≤ 9 by omega),
    digitVal_digitChar _ (show n % 10 ≤ 9 by omega)]
  have : (acc * 10 + n / 10) * 10 + n % 10 = acc * 100 + n := by omega
  rw [this]

theorem readDigits_pad3 (acc n : Nat) (rest : List Char) (h : n ≤ 999) :
    readDigits 3 acc (pad3 n ++ rest) = some (acc * 1000 + n, rest) := by
  simp only [pad3, List.cons_append, List.nil_append, readDigits,
    digitVal_digitChar _ (show n / 100 ≤ 9 by omega),
    digitVal_digitChar _ (show n / 10 % 10 ≤ 9 by omega),
    digitVal_digitChar _ (show n % 10 ≤ 9 by omega)]
  have : ((acc * 10 + n / 100) * 10 + n / 10 % 10) * 10 + n % 10 = acc * 1000 + n := by
    omega
  rw [this]

theorem readDigits_pad4 (acc n : Nat) (rest : List Char) (h : n ≤ 9999) :
    readDigits 4 acc (pad4 n ++ rest) = some (acc * 10000 + n, rest) := by
  simp only [pad4, List.cons_append, List.nil_append, readDigits,
    digitVal_digitChar _ (show n / 1000 ≤ 9 by omega),
    digitVal_digitChar _ (show n / 100 % 10 ≤ 9 by omega),
    digitVal_digitChar _ (show n / 10 % 10 ≤ 9 by omega),
    digitVal_digitChar _ (show n % 10 ≤ 9 by omega)]
  have : (((acc * 10 + n / 1000) * 10 + n / 100 % 10) * 10 + n / 10 % 10) * 10 + n % 10 =
      acc * 10000 + n := by omega
  rw [this]

theorem readDigits_pad6 (acc n : Nat) (rest : List Char) (h : n ≤ 999999) :
    readDigits 6 acc (pad6 n ++ rest) = some (acc * 1000000 + n, rest) := by
  simp only [pad6, List.cons_append, List.nil_append, readDigits,
    digitVal_digitChar _ (show n / 100000 ≤ 9 by omega),
    digitVal_digitChar _ (show n / 10000 % 10 ≤ 9 by omega),
    digitVal_digitChar _ (show n / 1000 % 10 ≤ 9 by omega),
    digitVal_digitChar _ (show n / 100 % 10 ≤ 9 by omega),
    digitVal_digitChar _ (show n / 10 % 10 ≤ 9 by omega),
    digitVal_digitChar _ (show n % 10 ≤ 9 by omega)]
  have : (((((acc * 10 + n / 100000) * 10 + n / 10000 % 10) * 10 + n / 1000 % 10) * 10 +
      n / 100 % 10) * 10 + n / 10 % 10) * 10 + n % 10 = acc * 1000000 + n := by omega
  rw [this]

theorem parseISOYear_pad4 (n : Nat) (rest : List Char) (h : n ≤ 9999) :
    parseISOYear (pad4 n ++ rest) = some ((n : Int), rest) := by
  have hne := digitChar_not_sign (n / 1000) (by omega)
  simp only [pad4, List.cons_append, List.nil_append, parseISOYear,
    if_neg hne.1, if_neg hne.2]
  have h4 := readDigits_pad4 0 n rest h
  simp only [pad4, List.cons_append, List.nil_append, Nat.zero_mul, Nat.zero_add] at h4
  rw [h4]

theorem parseISOYear_pad6_pos (n : Nat) (rest : List Char) (h : n ≤ 999999) :
    parseISOYear ('+' :: pad6 n ++ rest) = some ((n : Int), rest) := by
  simp only [List.cons_append, parseISOYear, reduceIte]
  simp only [readDigits_pad6 0 n rest h, Nat.zero_mul, Nat.zero_add]

theorem parseISOYear_pad6_neg (n : Nat) (rest : List Char) (h : n ≤ 999999)
    (h0 : n ≠ 0) :
    parseISOYear ('-' :: pad6 n ++ rest) = some (-(n : Int), rest) := by
  simp only [List.cons_append, parseISOYear, reduceIte]
  simp only [readDigits_pad6 0 n rest h, Nat.zero_mul, Nat.zero_add, if_neg h0]
  rw [if_neg (show ('-' : Char) = '+' → False by decide)]

theorem parseMD_full (mo dy : Nat) (rest : List Char) (hmo : mo ≤ 99) (hdy : dy ≤ 99) :
    parseMD ('-' :: (pad2 mo ++ '-' :: (pad2 dy ++ rest))) = some (mo, dy, rest) := by
  have hr1 := readDigits_pad2 0 mo ('-' :: (pad2 dy ++ rest)) hmo
  have hr2 := readDigits_pad2 0 dy rest hdy
  simp only [Nat.zero_mul, Nat.zero_add] at hr1 hr2
  simp only [parseMD, hr1, hr2]

theorem parseISOTime_full (h mi s ms : Nat) (rest : List Char)
    (hh : h ≤ 23) (hmi : mi ≤ 59) (hs : s ≤ 59) (hms : ms ≤ 999) :
    parseISOTime (pad2 h ++ ':' :: (pad2 mi ++ ':' :: (pad2 s ++ '.' :: (pad3 ms ++ rest)))) =
      some (h * 3600000 + mi * 60000 + s * 1000 + ms, rest) := by
  have hr1 := readDigits_pad2 0 h (':' :: (pad2 mi ++ ':' :: (pad2 s ++ '.' :: (pad3 ms ++ rest)))) (by omega)
  have hr2 := readDigits_pad2 0 mi (':' :: (pad2 s ++ '.' :: (pad3 ms ++ rest))) (by omega)
  have hr3 := readDigits_pad2 0 s ('.' :: (pad3 ms ++ rest)) (by omega)
  have hr4 := readDigits_pad3 0 ms rest (by omega)
  simp only [Nat.zero_mul, Nat.zero_add] at hr1 hr2 hr3 hr4
  simp only [parseISOTime, hr1, hr2, hr3, hr4, mkTimeMs]
  rw [if_pos ⟨hmi, hs, Or.inl hh⟩]

theorem civilFromDays_mo_dy_bounds (z : Int) :
    1 ≤ (civilFromDays z).2.1 ∧ (civilFromDays z).2.1 ≤ 12 ∧
      1 ≤ (civilFromDays z).2.2 ∧ (civilFromDays z).2.2 ≤ 31 := by
  have hdoe : ((z + 719468) % 146097).toNat ≤ 146096 := by omega
  have hD := doy_le_365 _ hdoe
  have hF := doyFields_ok (((z + 719468) % 146097).toNat -
    dayOffset (yoeOf ((z + 719468) % 146097).toNat)) hD
  simp only [civilFromDays]
  exact ⟨hF.1.1, hF.1.2, hF.2.1, hF.2.2⟩

theorem civilFromDays_year_bounds (z : Int) (hz1 : -100000001 ≤ z) (hz2 : z ≤ 100000001) :
    -999999 ≤ (civilFromDays z).1 ∧ (civilFromDays z).1 ≤ 999999 := by
  have hdoe : ((z + 719468) % 146097).toNat ≤ 146096 := by omega
  have hA := yoeOf_le_399 _ hdoe
  simp only [civilFromDays]
  split_ifs <;> omega

theorem parseISODate_toISOString (t : Int)
    (hlo : -8640000000000000 ≤ t) (hhi : t ≤ 8640000000000000) :
    parseISODate (toISOString t) = some t := by
  have hmod1 : 0 ≤ t % 86400000 := by omega
  have hmod2 : t % 86400000 < 86400000 := by omega
  have hb := civilFromDays_mo_dy_bounds (t / 86400000)
  have hyb := civilFromDays_year_bounds (t / 86400000) (by omega) (by omega)
  have hrt := daysFromCivil_civilFromDays (t / 86400000)
  simp only [toISOString, List.cons_append, List.append_assoc]
  have hTime := parseISOTime_full ((t % 86400000).toNat / 3600000)
    ((t % 86400000).toNat / 60000 % 60) ((t % 86400000).toNat / 1000 % 60)
    ((t % 86400000).toNat % 1000) ['Z'] (by omega) (by omega) (by omega) (by omega)
  have hMD := parseMD_full (civilFromDays (t / 86400000)).2.1
    (civilFromDays (t / 86400000)).2.2
    ('T' :: (pad2 ((t % 86400000).toNat / 3600000) ++ ':' ::
      (pad2 ((t % 86400000).toNat / 60000 % 60) ++ ':' ::
        (pad2 ((t % 86400000).toNat / 1000 % 60) ++ '.' ::
          (pad3 ((t % 86400000).toNat % 1000) ++ ['Z'])))))
    (by omega) (by omega)
  have hoffZ : parseISOOffset ['Z'] = some (0, []) := rfl
  have hmsodsum : (t % 86400000).toNat / 3600000 * 3600000 +
      (t % 86400000).toNat / 60000 % 60 * 60000 +
      (t % 86400000).toNat / 1000 % 60 * 1000 + (t % 86400000).toNat % 1000 =
      (t % 86400000).toNat := by omega
  rw [hmsodsum] at hTime
  have htv : t / 86400000 * 86400000 + ((t % 86400000).toNat : Int) - 0 * 60000 = t := by
    omega
  by_cases hy1 : 0 ≤ (civilFromDays (t / 86400000)).1 ∧ (civilFromDays (t / 86400000)).1 ≤ 9999
  · rw [if_pos hy1]
    have hYear := parseISOYear_pad4 (civilFromDays (t / 86400000)).1.toNat
      ('-' :: (pad2 (civilFromDays (t / 86400000)).2.1 ++ '-' ::
        (pad2 (civilFromDays (t / 86400000)).2.2 ++ 'T' ::
          (pad2 ((t % 86400000).toNat / 3600000) ++ ':' ::
            (pad2 ((t % 86400000).toNat / 60000 % 60) ++ ':' ::
              (pad2 ((t % 86400000).toNat / 1000 % 60) ++ '.' ::
                (pad3 ((t % 86400000).toNat % 1000) ++ ['Z'])))))))
      (by omega)
    have hcast : ((civilFromDays (t / 86400000)).1.toNat : Int) =
        (civilFromDays (t / 86400000)).1 := by omega
    rw [hcast] at hYear
    simp only [parseISODate, hYear, hMD, hTime, hoffZ, if_pos hb, hrt, clipTv]
    rw [htv]
    split_ifs with hclip
    · rfl
    · exact absurd ⟨hlo, hhi⟩ hclip
  · rw [if_neg hy1]
    by_cases hy2 : 9999 < (civilFromDays (t / 86400000)).1
    · rw [if_pos hy2]
      have hYear := parseISOYear_pad6_pos (civilFromDays (t / 86400000)).1.toNat
        ('-' :: (pad2 (civilFromDays (t / 86400000)).2.1 ++ '-' ::
          (pad2 (civilFromDays (t / 86400000)).2.2 ++ 'T' ::
            (pad2 ((t % 86400000).toNat / 3600000) ++ ':' ::
              (pad2 ((t % 86400000).toNat / 60000 % 60) ++ ':' ::
                (pad2 ((t % 86400000).toNat / 1000 % 60) ++ '.' ::
                  (pad3 ((t % 86400000).toNat % 1000) ++ ['Z'])))))))
        (by omega)
      have hcast : ((civilFromDays (t / 86400000)).1.toNat : Int) =
          (civilFromDays (t / 86400000)).1 := by omega
      rw [hcast] at hYear
      simp only [parseISODate, hYear, hMD, hTime, hoffZ, if_pos hb, hrt, clipTv]
      rw [htv]
      split_ifs with hclip
      · rfl
      · exact absurd ⟨hlo, hhi⟩ hclip
    · rw [if_neg hy2]
      have hYear := parseISOYear_pad6_neg (-(civilFromDays (t / 86400000)).1).toNat
        ('-' :: (pad2 (civilFromDays (t / 86400000)).2.1 ++ '-' ::
          (pad2 (civilFromDays (t / 86400000)).2.2 ++ 'T' ::
            (pad2 ((t % 86400000).toNat / 3600000) ++ ':' ::
              (pad2 ((t % 86400000).toNat / 60000 % 60) ++ ':' ::
                (pad2 ((t % 86400000).toNat / 1000 % 60) ++ '.' ::
                  (pad3 ((t % 86400000).toNat % 1000) ++ ['Z'])))))))
        (by omega) (by omega)
      have hcast : -(((-(civilFromDays (t / 86400000)).1).toNat : Int)) =
          (civilFromDays (t / 86400000)).1 := by omega
      rw [hcast] at hYear
      simp only [parseISODate, hYear, hMD, hTime, hoffZ, if_pos hb, hrt, clipTv]
      rw [htv]
      split_ifs with hclip
      · rfl
      · exact absurd ⟨hlo, hhi⟩ hclip

/-! ### Base64 correctness -/

theorem b64Char_props : ∀ n, n < 64 →
    isB64Ws (b64Char n) = false ∧ b64Char n ≠ '=' ∧ b64Index (b64Char n) = some n := by
  decide

theorem b64Sextets_lt : ∀ bs : List Nat, (∀ b ∈ bs, b < 256) →
    ∀ c ∈ b64Sextets bs, c < 64
  | [], _ => by simp [b64Sextets]
  | [b0], h => by
    have h0 := h b0 (by simp)
    simp only [b64Sextets, List.mem_cons, List.not_mem_nil, or_false]
    rintro c (rfl | rfl) <;> omega
  | [b0, b1], h => by
    have h0 := h b0 (by simp)
    have h1 := h b1 (by simp)
    simp only [b64Sextets, List.mem_cons, List.not_mem_nil, or_false]
    rintro c (rfl | rfl | rfl) <;> omega
  | b0 :: b1 :: b2 :: rest, h => by
    have h0 := h b0 (by simp)
    have h1 := h b1 (by simp)
    have h2 := h b2 (by simp)
    have ih := b64Sextets_lt rest (fun b hb => h b (by simp [hb]))
    simp only [b64Sextets, List.mem_cons]
    rintro c (rfl | rfl | rfl | rfl | hc)
    · omega
    · omega
    · omega
    · omega
    · exact ih c hc

theorem b64Group_sextets : ∀ bs : List Nat, (∀ b ∈ bs, b < 256) →
    b64Group (b64Sextets bs) = bs
  | [] => fun _ => by simp [b64Sextets, b64Group]
  | [b0] => fun h => by
    have h0 := h b0 (by simp)
    simp only [b64Sextets, b64Group, List.cons.injEq, and_true]
    omega
  | [b0, b1] => fun h => by
    have h0 := h b0 (by simp)
    have h1 := h b1 (by simp)
    simp only [b64Sextets, b64Group, List.cons.injEq, and_true]
    constructor
    · omega
    · omega
  | b0 :: b1 :: b2 :: rest => fun h => by
    have h0 := h b0 (by simp)
    have h1 := h b1 (by simp)
    have h2 := h b2 (by simp)
    have ih := b64Group_sextets rest (fun b hb => h b (by simp [hb]))
    simp only [b64Sextets, b64Group, List.cons.injEq]
    refine ⟨by omega, by omega, by omega, ih⟩

theorem b64IndexAll_map_b64Char : ∀ ss : List Nat, (∀ s ∈ ss, s < 64) →
    b64IndexAll (ss.map b64Char) = some ss := by
  intro ss
  induction ss with
  | nil => intro _; rfl
  | cons s rest ih =>
    intro h
    have hs := (b64Char_props s (h s (by simp))).2.2
    have hr := ih fun b hb => h b (by simp [hb])
    simp only [List.map_cons, b64IndexAll, hs, hr]

theorem b64Sextets_length_mod : ∀ bs : List Nat,
    ((b64Sextets bs).length + (b64PadOf bs).length) % 4 = 0 ∧
      (b64Sextets bs).length % 4 ≠ 1
  | [] => by simp [b64Sextets, b64PadOf]
  | [b0] => by simp [b64Sextets, b64PadOf]
  | [b0, b1] => by simp [b64Sextets, b64PadOf]
  | b0 :: b1 :: b2 :: rest => by
    have ih := b64Sextets_length_mod rest
    simp only [b64Sextets, b64PadOf, List.length_cons]
    omega

theorem stripPad_no_pad (l : List Char) (h : ∀ c ∈ l, c ≠ '=') : stripPad l = l := by
  unfold stripPad
  match hrev : l.reverse with
  | [] => rfl
  | c :: r =>
    have hc : c ∈ l := by
      have : c ∈ l.reverse := by rw [hrev]; simp
      simpa using this
    simp only [List.headD_cons]
    rw [if_neg (h c hc)]

theorem stripPad_pad1 (l : List Char) (h : ∀ c ∈ l, c ≠ '=') :
    stripPad (l ++ ['=']) = l := by
  unfold stripPad
  rw [List.reverse_append]
  match hrev : l.reverse with
  | [] =>
    have hl : l = [] := by simpa using congrArg List.reverse hrev
    subst hl
    rfl
  | c2 :: r2 =>
    have hc2 : c2 ∈ l := by
      have : c2 ∈ l.reverse := by rw [hrev]; simp
      simpa using this
    simp only [List.reverse_cons, List.reverse_nil, List.nil_append, List.cons_append,
      List.headD_cons, List.tail_cons]
    simp only [if_true]
    rw [if_neg (h c2 hc2), ← hrev, List.reverse_reverse]

theorem stripPad_pad2 (l : List Char) : stripPad (l ++ ['=', '=']) = l := by
  unfold stripPad
  rw [List.reverse_append]
  simp only [List.reverse_cons, List.reverse_nil, List.nil_append, List.cons_append,
    List.headD_cons, List.tail_cons]
  simp only [if_true, List.reverse_reverse]

theorem b64PadOf_cases : ∀ bs : List Nat,
    b64PadOf bs = [] ∨ b64PadOf bs = ['='] ∨ b64PadOf bs = ['=', '=']
  | [] => Or.inl rfl
  | [_] => Or.inr (Or.inr rfl)
  | [_, _] => Or.inr (Or.inl rfl)
  | _ :: _ :: _ :: rest => b64PadOf_cases rest

theorem atobBytes_encodeB64 (bs : List Nat) (h : ∀ b ∈ bs, b < 256) :
    atobBytes (encodeB64 bs) = some bs := by
  have hsex := b64Sextets_lt bs h
  have hbody_props : ∀ c ∈ (b64Sextets bs).map b64Char, isB64Ws c = false ∧ c ≠ '=' := by
    intro c hc
    rw [List.mem_map] at hc
    obtain ⟨n, hn, rfl⟩ := hc
    exact ⟨(b64Char_props n (hsex n hn)).1, (b64Char_props n (hsex n hn)).2.1⟩
  have hfilter : (encodeB64 bs).filter (fun c => !isB64Ws c) = encodeB64 bs := by
    apply List.filter_eq_self.mpr
    intro c hc
    rw [encodeB64, List.mem_append] at hc
    rcases hc with hc | hc
    · simp [(hbody_props c hc).1]
    · rcases b64PadOf_cases bs with hp | hp | hp <;> rw [hp] at hc
      · exact absurd hc (List.not_mem_nil c)
      · simp only [List.mem_singleton] at hc
        subst hc
        decide
      · simp only [List.mem_cons, List.not_mem_nil, or_false] at hc
        rcases hc with rfl | rfl <;> decide
  have hlen := b64Sextets_length_mod bs
  have hlen_enc : (encodeB64 bs).length % 4 = 0 := by
    rw [encodeB64, List.length_append, List.length_map]
    rcases b64PadOf_cases bs with hp | hp | hp <;> rw [hp] at hlen ⊢ <;>
      simp only [List.length_nil, List.length_cons, List.length_singleton] at hlen ⊢ <;>
      omega
  have hstrip : stripPad (encodeB64 bs) = (b64Sextets bs).map b64Char := by
    rw [encodeB64]
    rcases b64PadOf_cases bs with hp | hp | hp <;> rw [hp]
    · rw [List.append_nil]
      exact stripPad_no_pad _ fun c hc => (hbody_props c hc).2
    · exact stripPad_pad1 _ fun c hc => (hbody_props c hc).2
    · exact stripPad_pad2 _
  have hidx := b64IndexAll_map_b64Char (b64Sextets bs) hsex
  have hgrp := b64Group_sextets bs h
  unfold atobBytes
  rw [hfilter]
  simp only [hlen_enc, beq_self_eq_true, if_true]
  rw [hstrip]
  rw [if_neg (by rw [List.length_map]; simp only [beq_iff_eq]; omega)]
  rw [hidx]
  show some (b64Group (b64Sextets bs)) = some bs
  rw [hgrp]

theorem atobStr_btoaStr (cs : List Char) (h : ∀ c ∈ cs, c.toNat < 256) :
    btoaStr cs = some (encodeB64 (cs.map Char.toNat)) ∧
      atobStr (encodeB64 (cs.map Char.toNat)) = some cs := by
  constructor
  · rw [btoaStr, if_pos]
    rw [List.all_eq_true]
    intro c hc
    simpa using h c hc
  · rw [atobStr]
    have hb : ∀ b ∈ cs.map Char.toNat, b < 256 := by
      intro b hb
      rw [List.mem_map] at hb
      obtain ⟨c, hc, rfl⟩ := hb
      exact h c hc
    rw [atobBytes_encodeB64 _ hb]
    show some ((cs.map Char.toNat).map Char.ofNat) = some cs
    rw [List.map_map]
    have : ∀ c ∈ cs, (Char.ofNat ∘ Char.toNat) c = id c := by
      intro c _
      simp [Char.ofNat_toNat]
    rw [List.map_congr_left this, List.map_id]

/-! ### JSON parsing of the serialized state -/

theorem skipWs_not_ws (c : Char) (r : List Char) (h : isJsonWs c = false) :
    skipWs (c :: r) = c :: r := by
  simp [skipWs, List.dropWhile_cons, h]

theorem plainChar_facts (c : Char) (hc : plainChar c = true) :
    c ≠ '"' ∧ c ≠ '\\' ∧ ¬c.toNat < 32 ∧ c.toNat < 256 := by
  simp only [plainChar, Bool.and_eq_true, decide_eq_true_eq, ne_eq] at hc
  exact ⟨hc.1.1.1.2, hc.1.1.2, by omega, by omega⟩

theorem parseStringBody_plain : ∀ (z rest : List Char),
    (∀ c ∈ z, plainChar c = true) →
    parseStringBody (z ++ '"' :: rest) = some (z, rest) := by
  intro z
  induction z with
  | nil =>
    intro rest _
    rw [List.nil_append, parseStringBody.eq_def]
    simp
  | cons c z' ih =>
    intro rest h
    have hc := plainChar_facts c (h c (by simp))
    have hih := ih rest fun c' hc' => h c' (by simp [hc'])
    rw [List.cons_append, parseStringBody.eq_def]
    simp only [if_neg hc.1, if_neg hc.2.1, if_neg hc.2.2.1, hih, Option.map_some']

theorem parseJ_val_str (f : Nat) (z rest : List Char)
    (h : ∀ c ∈ z, plainChar c = true) :
    parseJ (f + 1) PK.val ('"' :: (z ++ '"' :: rest)) = some (JVal.jstr z, rest) := by
  have hs : skipWs ('"' :: (z ++ '"' :: rest)) = '"' :: (z ++ '"' :: rest) :=
    skipWs_not_ws _ _ (by decide)
  simp only [parseJ, hs, parseStringBody_plain z rest h, Option.map_some', if_true]

theorem escapeJsonChar_plain (c : Char) (hc : plainChar c = true) :
    escapeJsonChar c = [c] := by
  have h := plainChar_facts c hc
  unfold escapeJsonChar
  rw [if_neg h.1, if_neg h.2.1,
    if_neg (show c = '\x08' → False from fun heq => h.2.2.1 (by rw [heq]; decide)),
    if_neg (show c = '\x09' → False from fun heq => h.2.2.1 (by rw [heq]; decide)),
    if_neg (show c = '\x0a' → False from fun heq => h.2.2.1 (by rw [heq]; decide)),
    if_neg (show c = '\x0c' → False from fun heq => h.2.2.1 (by rw [heq]; decide)),
    if_neg (show c = '\x0d' → False from fun heq => h.2.2.1 (by rw [heq]; decide)),
    if_neg h.2.2.1]

theorem escapeJson_plain : ∀ z : List Char, (∀ c ∈ z, plainChar c = true) →
    escapeJson z = z := by
  intro z
  induction z with
  | nil => intro _; rfl
  | cons c r ih =>
    intro h
    rw [escapeJson, escapeJsonChar_plain c (h c (by simp)),
      ih fun c' hc' => h c' (by simp [hc']), List.singleton_append]

theorem quoteJson_append (z rest : List Char) (h : ∀ c ∈ z, plainChar c = true) :
    quoteJson z ++ rest = '"' :: (z ++ '"' :: rest) := by
  rw [quoteJson, escapeJson_plain z h]
  simp

theorem parseJ_val_quote (f : Nat) (z rest : List Char)
    (h : ∀ c ∈ z, plainChar c = true) :
    parseJ (f + 1) PK.val (quoteJson z ++ rest) = some (JVal.jstr z, rest) := by
  rw [quoteJson_append z rest h]
  exact parseJ_val_str f z rest h

theorem parseJ_elems_full : ∀ (zones : List (List Char)) (f : Nat) (rest : List Char),
    zones ≠ [] →
    (∀ z ∈ zones, ∀ c ∈ z, plainChar c = true) →
    zones.length + 1 ≤ f →
    parseJ f PK.elems (joinComma (zones.map quoteJson) ++ ']' :: rest) =
      some (JVal.jarr (zones.map JVal.jstr), rest) := by
  intro zones
  induction zones with
  | nil => intro f rest hne _ _; exact absurd rfl hne
  | cons z zs ih =>
    intro f rest _ hp hf
    simp only [List.length_cons] at hf
    obtain ⟨f1, rfl⟩ : ∃ f1, f = f1 + 1 := ⟨f - 1, by omega⟩
    obtain ⟨f2, rfl⟩ : ∃ f2, f1 = f2 + 1 := ⟨f1 - 1, by omega⟩
    have hzp : ∀ c ∈ z, plainChar c = true := hp z (by simp)
    rcases zs with _ | ⟨z2, zs'⟩
    · have hval := parseJ_val_quote f2 z (']' :: rest) hzp
      rw [show joinComma (List.map quoteJson [z]) = quoteJson z from rfl]
      rw [parseJ.eq_def]
      simp +decide [hval, skipWs, List.dropWhile_cons]
    · have hval := parseJ_val_quote f2 z
        (',' :: (joinComma ((z2 :: zs').map quoteJson) ++ ']' :: rest)) hzp
      have hrec := ih (f2 + 1) rest (by simp) (fun w hw => hp w (by simp [hw]))
        (by simp only [List.length_cons] at hf ⊢; omega)
      simp only [List.map_cons] at hval hrec
      rw [show joinComma (List.map quoteJson (z :: z2 :: zs')) =
        quoteJson z ++ ',' :: joinComma (List.map quoteJson (z2 :: zs')) from rfl]
      rw [List.append_assoc, List.cons_append, parseJ.eq_def]
      simp +decide [hval, hrec, skipWs, List.dropWhile_cons]

theorem parseJ_val_arr (f : Nat) (zones : List (List Char)) (rest : List Char)
    (hp : ∀ z ∈ zones, ∀ c ∈ z, plainChar c = true)
    (hf : zones.length + 2 ≤ f) :
    parseJ f PK.val ('[' :: (joinComma (zones.map quoteJson) ++ ']' :: rest)) =
      some (JVal.jarr (zones.map JVal.jstr), rest) := by
  obtain ⟨f1, rfl⟩ : ∃ f1, f = f1 + 1 := ⟨f - 1, by omega⟩
  rcases zones with _ | ⟨z, zs⟩
  · rw [parseJ.eq_def]
    simp +decide [joinComma, skipWs, List.dropWhile_cons]
  · have helems := parseJ_elems_full (z :: zs) f1 rest (by simp) hp
      (by simp only [List.length_cons] at hf ⊢; omega)
    rcases zs with _ | ⟨z2, zs2⟩
    · rw [show joinComma (List.map quoteJson [z]) = quoteJson z from rfl] at helems ⊢
      rw [parseJ.eq_def]
      simp only [quoteJson, List.cons_append, List.append_assoc, List.nil_append,
        List.map_cons, List.map_nil] at helems ⊢
      simp +decide [helems, skipWs, List.dropWhile_cons]
    · rw [show joinComma (List.map quoteJson (z :: z2 :: zs2)) =
        quoteJson z ++ ',' :: joinComma (List.map quoteJson (z2 :: zs2)) from rfl]
        at helems ⊢
      rw [parseJ.eq_def]
      simp only [quoteJson, List.cons_append, List.append_assoc, List.nil_append,
        List.map_cons, List.map_nil] at helems ⊢
      simp +decide [helems, skipWs, List.dropWhile_cons]

theorem parseJ_members_state (f : Nat) (time : List Char) (zones : List (List Char))
    (rest : List Char)
    (ht : ∀ c ∈ time, plainChar c = true)
    (hp : ∀ z ∈ zones, ∀ c ∈ z, plainChar c = true)
    (hf : zones.length + 4 ≤ f) :
    parseJ f PK.members
      ('"' :: ('t' :: 'i' :: 'm' :: 'e' :: '"' :: ':' ::
        (quoteJson time ++ ',' ::
          ('"' :: ('t' :: 'i' :: 'm' :: 'e' :: 'z' :: 'o' :: 'n' :: 'e' :: 's' :: '"' :: ':' ::
            ('[' :: (joinComma (zones.map quoteJson) ++ ']' :: '\x7d' :: rest))))))) =
      some (stateJVal time zones, rest) := by
  obtain ⟨f1, rfl⟩ : ∃ f1, f = f1 + 1 := ⟨f - 1, by omega⟩
  obtain ⟨f2, rfl⟩ : ∃ f2, f1 = f2 + 1 := ⟨f1 - 1, by omega⟩
  have hkey1 := parseStringBody_plain ['t', 'i', 'm', 'e']
    (':' :: (quoteJson time ++ ',' ::
      ('"' :: ('t' :: 'i' :: 'm' :: 'e' :: 'z' :: 'o' :: 'n' :: 'e' :: 's' :: '"' :: ':' ::
        ('[' :: (joinComma (zones.map quoteJson) ++ ']' :: '\x7d' :: rest))))))
    (by decide)
  simp only [List.cons_append, List.nil_append] at hkey1
  have hkey2 := parseStringBody_plain ['t', 'i', 'm', 'e', 'z', 'o', 'n', 'e', 's']
    (':' :: ('[' :: (joinComma (zones.map quoteJson) ++ ']' :: '\x7d' :: rest)))
    (by decide)
  simp only [List.cons_append, List.nil_append] at hkey2
  have hval1 := parseJ_val_quote f2 time
    (',' :: ('"' :: ('t' :: 'i' :: 'm' :: 'e' :: 'z' :: 'o' :: 'n' :: 'e' :: 's' :: '"' :: ':' ::
      ('[' :: (joinComma (zones.map quoteJson) ++ ']' :: '\x7d' :: rest))))) ht
  have hval2 := parseJ_val_arr f2 zones ('\x7d' :: rest) hp (by omega)
  have hin : parseJ (f2 + 1) PK.members
      ('"' :: ('t' :: 'i' :: 'm' :: 'e' :: 'z' :: 'o' :: 'n' :: 'e' :: 's' :: '"' :: ':' ::
        ('[' :: (joinComma (zones.map quoteJson) ++ ']' :: '\x7d' :: rest)))) =
      some (JVal.jobj [("timezones".toList, JVal.jarr (zones.map JVal.jstr))], rest) := by
    rw [parseJ.eq_def]
    simp +decide [hkey2, hval2, skipWs, List.dropWhile_cons]
  rw [parseJ.eq_def]
  simp +decide [hkey1, hval1, hin, skipWs, List.dropWhile_cons, stateJVal]

theorem parseJ_stringifyState (f : Nat) (time : List Char) (zones : List (List Char))
    (ht : ∀ c ∈ time, plainChar c = true)
    (hp : ∀ z ∈ zones, ∀ c ∈ z, plainChar c = true)
    (hf : zones.length + 6 ≤ f) :
    parseJ f PK.val (stringifyStateJson time zones) = some (stateJVal time zones, []) := by
  obtain ⟨f1, rfl⟩ : ∃ f1, f = f1 + 1 := ⟨f - 1, by omega⟩
  have hmem := parseJ_members_state f1 time zones [] ht hp (by omega)
  rw [stringifyStateJson,
    show "\"time\":".toList = '"' :: 't' :: 'i' :: 'm' :: 'e' :: '"' :: ':' :: [] from rfl,
    show ",\"timezones\":[".toList = ',' :: '"' :: 't' :: 'i' :: 'm' :: 'e' :: 'z' :: 'o' ::
      'n' :: 'e' :: 's' :: '"' :: ':' :: '[' :: [] from rfl]
  simp only [List.cons_append, List.append_assoc, List.nil_append]
  rw [parseJ.eq_def]
  simp +decide [hmem, skipWs, List.dropWhile_cons]

theorem joinComma_length : ∀ qs : List (List Char),
    (∀ q ∈ qs, 2 ≤ q.length) → qs.length ≤ (joinComma qs).length := by
  intro qs
  induction qs with
  | nil => intro _; simp [joinComma]
  | cons q qs ih =>
    intro h
    rcases qs with _ | ⟨q2, qs'⟩
    · have := h q (by simp)
      simp only [joinComma, List.length_cons, List.length_nil]
      omega
    · have h1 := h q (by simp)
      have h2 := ih fun w hw => h w (by simp [hw])
      simp only [joinComma, List.length_append, List.length_cons] at h2 ⊢
      omega

theorem stringifyStateJson_length (time : List Char) (zones : List (List Char)) :
    zones.length + 6 ≤ (stringifyStateJson time zones).length + 1 := by
  have hq : ∀ q ∈ zones.map quoteJson, 2 ≤ q.length := by
    intro q hq
    rw [List.mem_map] at hq
    obtain ⟨z, _, rfl⟩ := hq
    simp [quoteJson]
  have hj := joinComma_length (zones.map quoteJson) hq
  rw [List.length_map] at hj
  rw [stringifyStateJson,
    show "\"time\":".toList = '"' :: 't' :: 'i' :: 'm' :: 'e' :: '"' :: ':' :: [] from rfl,
    show ",\"timezones\":[".toList = ',' :: '"' :: 't' :: 'i' :: 'm' :: 'e' :: 'z' :: 'o' ::
      'n' :: 'e' :: 's' :: '"' :: ':' :: '[' :: [] from rfl]
  simp only [List.length_append, List.length_cons, List.length_nil]
  omega

theorem jsonParseTop_stringify (time : List Char) (zones : List (List Char))
    (ht : ∀ c ∈ time, plainChar c = true)
    (hp : ∀ z ∈ zones, ∀ c ∈ z, plainChar c = true) :
    jsonParseTop (stringifyStateJson time zones) = some (stateJVal time zones) := by
  have hlen := stringifyStateJson_length time zones
  rw [jsonParseTop, parseJ_stringifyState _ time zones ht hp (by omega)]
  rfl

/-! ### Character classes of the serialized state -/

theorem digitChar_plain : ∀ n : Nat, plainChar (Nat.digitChar n) = true := by
  intro n
  rcases Nat.lt_or_ge n 16 with h | h
  · interval_cases n <;> decide
  · obtain ⟨m, rfl⟩ : ∃ m, n = m + 16 := ⟨n - 16, by omega⟩
    have hd : Nat.digitChar (m + 16) = '*' := rfl
    rw [hd]; decide

theorem pad2_plain (n : Nat) : ∀ c ∈ pad2 n, plainChar c = true := by
  intro c hc
  simp only [pad2, List.mem_cons, List.not_mem_nil, or_false] at hc
  rcases hc with rfl | rfl <;> exact digitChar_plain _

theorem pad3_plain (n : Nat) : ∀ c ∈ pad3 n, plainChar c = true := by
  intro c hc
  simp only [pad3, List.mem_cons, List.not_mem_nil, or_false] at hc
  rcases hc with rfl | rfl | rfl <;> exact digitChar_plain _

theorem pad4_plain (n : Nat) : ∀ c ∈ pad4 n, plainChar c = true := by
  intro c hc
  simp only [pad4, List.mem_cons, List.not_mem_nil, or_false] at hc
  rcases hc with rfl | rfl | rfl | rfl <;> exact digitChar_plain _

theorem pad6_plain (n : Nat) : ∀ c ∈ pad6 n, plainChar c = true := by
  intro c hc
  simp only [pad6, List.mem_cons, List.not_mem_nil, or_false] at hc
  rcases hc with rfl | rfl | rfl | rfl | rfl | rfl <;> exact digitChar_plain _

theorem toISOString_plain (t : Int) : ∀ c ∈ toISOString t, plainChar c = true := by
  intro c hc
  simp only [toISOString, List.mem_append, List.mem_cons, List.mem_singleton,
    List.not_mem_nil, or_false] at hc
  rcases hc with ((((((hy | rfl | h) | rfl | h) | rfl | h) | rfl | h) | rfl | h) | rfl | h) | rfl
  · split_ifs at hy with h1 h2
    · exact pad4_plain _ _ hy
    · rw [List.mem_cons] at hy
      rcases hy with rfl | hy
      · decide
      · exact pad6_plain _ _ hy
    · rw [List.mem_cons] at hy
      rcases hy with rfl | hy
      · decide
      · exact pad6_plain _ _ hy
  all_goals first
    | decide
    | exact pad2_plain _ _ h
    | exact pad3_plain _ _ h

theorem toISOString_ne_nil (t : Int) : toISOString t ≠ [] := by
  simp [toISOString]

theorem plainChar_safe (c : Char) (h : plainChar c = true) : safeByteChar c = true := by
  simp only [plainChar, Bool.and_eq_true, decide_eq_true_eq] at h
  simp only [safeByteChar, Bool.and_eq_true, decide_eq_true_eq]
  omega

theorem safeByteChar_spec (c : Char) (h : safeByteChar c = true) :
    c.toNat < 128 ∧ c.toNat ≠ 62 ∧ c.toNat ≠ 63 ∧ c.toNat ≠ 126 ∧ c.toNat ≠ 127 := by
  simp only [safeByteChar, Bool.and_eq_true, decide_eq_true_eq] at h
  omega

theorem quoteJson_safe (z : List Char) (h : ∀ c ∈ z, plainChar c = true) :
    ∀ c ∈ quoteJson z, safeByteChar c = true := by
  intro c hc
  rw [quoteJson, escapeJson_plain z h] at hc
  rw [List.mem_append, List.mem_cons, List.mem_singleton] at hc
  rcases hc with (rfl | h2) | rfl
  · decide
  · exact plainChar_safe c (h c h2)
  · decide

theorem joinComma_mem : ∀ (qs : List (List Char)) (c : Char), c ∈ joinComma qs →
    c = ',' ∨ ∃ q ∈ qs, c ∈ q := by
  intro qs
  induction qs with
  | nil => intro c hc; simp [joinComma] at hc
  | cons q qs ih =>
    intro c hc
    rcases qs with _ | ⟨q2, qs'⟩
    · right
      refine ⟨q, by simp, ?_⟩
      simpa [joinComma] using hc
    · rw [show joinComma (q :: q2 :: qs') = q ++ ',' :: joinComma (q2 :: qs') from rfl] at hc
      rw [List.mem_append, List.mem_cons] at hc
      rcases hc with h | rfl | h
      · right; exact ⟨q, by simp, h⟩
      · left; rfl
      · rcases ih c h with h | ⟨w, hw, hcw⟩
        · left; exact h
        · right; exact ⟨w, by simp [hw], hcw⟩

theorem stringify_safe (time : List Char) (zones : List (List Char))
    (ht : ∀ c ∈ time, plainChar c = true)
    (hp : ∀ z ∈ zones, ∀ c ∈ z, plainChar c = true) :
    ∀ c ∈ stringifyStateJson time zones, safeByteChar c = true := by
  intro c hc
  rw [stringifyStateJson] at hc
  simp only [List.mem_append, List.mem_cons, List.mem_singleton, List.not_mem_nil,
    or_false] at hc
  rcases hc with ((((rfl | h) | h) | h) | h) | rfl | rfl
  · decide
  · exact (show ∀ x ∈ "\"time\":".toList, safeByteChar x = true by decide) c h
  · exact quoteJson_safe time ht c h
  · exact (show ∀ x ∈ ",\"timezones\":[".toList, safeByteChar x = true by decide) c h
  · rcases joinComma_mem _ c h with rfl | ⟨q, hq, hcq⟩
    · decide
    · rw [List.mem_map] at hq
      obtain ⟨z, hz, rfl⟩ := hq
      exact quoteJson_safe z (hp z hz) c hcq
  · decide
  · decide

/-! ### URL safety of the base64 token -/

theorem b64Sextets_lt62 : ∀ bs : List Nat,
    (∀ b ∈ bs, b < 128 ∧ b ≠ 62 ∧ b ≠ 63 ∧ b ≠ 126 ∧ b ≠ 127) →
    ∀ c ∈ b64Sextets bs, c < 62
  | [], _ => by simp [b64Sextets]
  | [b0], h => by
    have h0 := h b0 (by simp)
    simp only [b64Sextets, List.mem_cons, List.not_mem_nil, or_false]
    rintro c (rfl | rfl) <;> omega
  | [b0, b1], h => by
    have h0 := h b0 (by simp)
    have h1 := h b1 (by simp)
    simp only [b64Sextets, List.mem_cons, List.not_mem_nil, or_false]
    rintro c (rfl | rfl | rfl) <;> omega
  | b0 :: b1 :: b2 :: rest, h => by
    have h0 := h b0 (by simp)
    have h1 := h b1 (by simp)
    have h2 := h b2 (by simp)
    have ih := b64Sextets_lt62 rest (fun b hb => h b (by simp [hb]))
    simp only [b64Sextets, List.mem_cons]
    rintro c (rfl | rfl | rfl | rfl | hc)
    · omega
    · omega
    · omega
    · omega
    · exact ih c hc

theorem b64Char_urlSafe : ∀ s, s < 62 → urlSafeChar (b64Char s) = true := by decide

theorem urlSafeChar_not_special (c : Char) (h : urlSafeChar c = true) :
    c ≠ '+' ∧ c ≠ '%' := by
  constructor <;> (rintro rfl; simp [urlSafeChar] at h)

theorem b64PadOf_mem (bs : List Nat) : ∀ c ∈ b64PadOf bs, c = '=' := by
  intro c hc
  rcases b64PadOf_cases bs with h | h | h <;> rw [h] at hc <;> simp_all

theorem encodeB64_urlSafe (bs : List Nat)
    (h : ∀ b ∈ bs, b < 128 ∧ b ≠ 62 ∧ b ≠ 63 ∧ b ≠ 126 ∧ b ≠ 127) :
    ∀ c ∈ encodeB64 bs, urlSafeChar c = true := by
  intro c hc
  rw [encodeB64, List.mem_append] at hc
  rcases hc with hc | hc
  · rw [List.mem_map] at hc
    obtain ⟨s, hs, rfl⟩ := hc
    exact b64Char_urlSafe s (b64Sextets_lt62 bs h s hs)
  · rw [b64PadOf_mem bs c hc]
    decide

theorem urlDecodeA_id : ∀ (f : Nat) (cs : List Char),
    (∀ c ∈ cs, c ≠ '+' ∧ c ≠ '%') → urlDecodeA f cs = cs := by
  intro f
  induction f with
  | zero => intro cs _; rfl
  | succ f ih =>
    intro cs h
    rcases cs with _ | ⟨c, r⟩
    · rfl
    · have hc := h c (by simp)
      have hstep : urlDecodeA (f + 1) (c :: r) = c :: urlDecodeA f r := by
        rw [urlDecodeA.eq_def]
        simp only [if_neg hc.1, if_neg hc.2]
      rw [hstep, ih r fun c' hc' => h c' (by simp [hc'])]

theorem urlDecodeValue_id (cs : List Char) (h : ∀ c ∈ cs, c ≠ '+' ∧ c ≠ '%') :
    urlDecodeValue cs = cs := urlDecodeA_id _ cs h

/-! ### The share-state codec round trip -/

theorem catalogIds_plain : ∀ id ∈ catalogIds, ∀ c ∈ id.toList, plainChar c = true := by
  decide

theorem stringify_lt256 (time : List Char) (zones : List (List Char))
    (ht : ∀ c ∈ time, plainChar c = true)
    (hp : ∀ z ∈ zones, ∀ c ∈ z, plainChar c = true) :
    ∀ c ∈ stringifyStateJson time zones, c.toNat < 256 := by
  intro c hc
  have := safeByteChar_spec c (stringify_safe time zones ht hp c hc)
  omega

theorem encodeShareState_eq (s : ShareState)
    (hz : ∀ z ∈ s.timezones, ∀ c ∈ z.toList, plainChar c = true) :
    encodeShareState s = some (List.asString (encodeB64
      ((stringifyStateJson (toISOString s.time) (s.timezones.map String.toList)).map
        Char.toNat))) := by
  rw [encodeShareState]
  have h256 := stringify_lt256 (toISOString s.time) (s.timezones.map String.toList)
    (toISOString_plain s.time)
    (by intro z hz'
        rw [List.mem_map] at hz'
        obtain ⟨w, hw, rfl⟩ := hz'
        exact hz w hw)
  rw [(atobStr_btoaStr _ h256).1]
  rfl

theorem decodeState_stringify (time : List Char) (zones : List (List Char))
    (ht : ∀ c ∈ time, plainChar c = true)
    (hp : ∀ z ∈ zones, ∀ c ∈ z, plainChar c = true)
    (hne : time ≠ []) :
    decodeState (List.asString (encodeB64 ((stringifyStateJson time zones).map Char.toNat))) =
      .ok ⟨JVal.jstr time, zones.map JVal.jstr⟩ := by
  have h256 := stringify_lt256 time zones ht hp
  have hatob := (atobStr_btoaStr _ h256).2
  have htl : (List.asString (encodeB64
      ((stringifyStateJson time zones).map Char.toNat))).toList =
      encodeB64 ((stringifyStateJson time zones).map Char.toNat) := rfl
  simp only [decodeState, htl, hatob, jsonParseTop_stringify time zones ht hp, stateJVal,
    getMem, jlookup, List.foldl_cons, List.foldl_nil, truthyJ]
  simp +decide [hne]

/-! ### The active-zone list state machine -/

theorem cons_eraseIdx_perm {α : Type} : ∀ (l : List α) (i : Nat) (x : α),
    l.get? i = some x → (x :: l.eraseIdx i).Perm l := by
  intro l
  induction l with
  | nil => intro i x h; simp at h
  | cons a l ih =>
    intro i x h
    cases i with
    | zero =>
      simp only [List.get?_cons_zero, Option.some.injEq] at h
      subst h
      simp [List.eraseIdx]
    | succ i =>
      simp only [List.get?_cons_succ] at h
      have hp := ih i x h
      simp only [List.eraseIdx_cons_succ]
      exact (List.Perm.swap a x _).trans (hp.cons a)

theorem insertIdx_perm {α : Type} : ∀ (m : List α) (j : Nat) (x : α), j ≤ m.length →
    (m.insertIdx j x).Perm (x :: m) := by
  intro m
  induction m with
  | nil =>
    intro j x h
    have hj : j = 0 := by simpa using h
    subst hj
    exact List.Perm.refl _
  | cons a m ih =>
    intro j x h
    cases j with
    | zero => exact List.Perm.refl _
    | succ j =>
      simp only [List.insertIdx_succ_cons]
      have hp := ih j x (by simpa using h)
      exact (hp.cons a).trans (List.Perm.swap x a m)

theorem moveItem_perm (l : List String) (i j : Nat) (hi : i < l.length)
    (hj : j ≤ l.length - 1) :
    (moveItem l i j).Perm l := by
  have hget := List.get?_eq_get hi
  rw [moveItem, hget]
  have hel : (l.eraseIdx i).length = l.length - 1 := by
    rw [List.length_eraseIdx]
    simp [hi]
  have h1 := insertIdx_perm (l.eraseIdx i) j (l.get ⟨i, hi⟩) (by omega)
  exact h1.trans (cons_eraseIdx_perm l i (l.get ⟨i, hi⟩) hget)

theorem ZInv_init : ZInv initialZoneState := by decide

theorem catalog_id_ne_empty : ∀ id ∈ catalogIds, id ≠ "" := by decide

theorem catalog_find (id : String) (h : id ∈ catalogIds) :
    ∃ tz : Timezone, (timezones.find? fun tz => tz.id = id) = some tz ∧ tz.id = id ∧
      tz ∈ timezones ∧ ∀ tz' ∈ timezones, tz'.id = id → tz' = tz := by
  have h4 : id = "UTC" ∨ id = "IST" ∨ id = "EST" ∨ id = "PST" := by
    simpa [catalogIds, timezones] using h
  have huniq : ∀ tz' ∈ timezones, ∀ tz2 ∈ timezones, tz'.id = tz2.id → tz' = tz2 := by
    intro tz' h1 tz2 h2 hid
    simp only [timezones, List.mem_cons, List.not_mem_nil, or_false] at h1 h2
    rcases h1 with rfl | rfl | rfl | rfl <;> rcases h2 with rfl | rfl | rfl | rfl <;>
      first | rfl | (exfalso; simp at hid)
  rcases h4 with rfl | rfl | rfl | rfl
  · refine ⟨⟨"UTC", "Universal Time Coordinated", 0⟩, by rw [timezones]; rfl, rfl, ?_, ?_⟩
    · rw [timezones]; exact List.mem_cons_self _ _
    · intro tz' h' h2
      exact huniq tz' h' _ (by rw [timezones]; exact List.mem_cons_self _ _) h2
  · refine ⟨⟨"IST", "India Standard Time", 5.5⟩, by rw [timezones]; rfl, rfl, ?_, ?_⟩
    · rw [timezones]
      exact List.mem_cons_of_mem _ (List.mem_cons_self _ _)
    · intro tz' h' h2
      exact huniq tz' h' _
        (by rw [timezones]; exact List.mem_cons_of_mem _ (List.mem_cons_self _ _)) h2
  · refine ⟨⟨"EST", "Eastern Standard Time", -5⟩, by rw [timezones]; rfl, rfl, ?_, ?_⟩
    · rw [timezones]
      exact List.mem_cons_of_mem _ (List.mem_cons_of_mem _ (List.mem_cons_self _ _))
    · intro tz' h' h2
      exact huniq tz' h' _
        (by rw [timezones]
            exact List.mem_cons_of_mem _ (List.mem_cons_of_mem _ (List.mem_cons_self _ _))) h2
  · refine ⟨⟨"PST", "Pacific Standard Time", -8⟩, by rw [timezones]; rfl, rfl, ?_, ?_⟩
    · rw [timezones]
      exact List.mem_cons_of_mem _ (List.mem_cons_of_mem _ (List.mem_cons_of_mem _
        (List.mem_cons_self _ _)))
    · intro tz' h' h2
      exact huniq tz' h' _
        (by rw [timezones]
            exact List.mem_cons_of_mem _ (List.mem_cons_of_mem _ (List.mem_cons_of_mem _
              (List.mem_cons_self _ _)))) h2

theorem ZInv_step (st : ZoneState) (tr : ZTrans) (hinv : ZInv st) (hpre : preZ st tr = true) :
    ZInv (stepZ st tr) := by
  obtain ⟨hnd, hcat, havnd, havmem, hiff⟩ := hinv
  cases tr with
  | add id =>
    rw [preZ, Bool.and_eq_true] at hpre
    have hid : id ∈ catalogIds := by simpa using hpre.1
    have hnotin : id ∉ st.active := by simpa using hpre.2
    have hne : id ≠ "" := catalog_id_ne_empty id hid
    simp only [stepZ, addTimezone, if_pos (show id ≠ "" from hne)]
    refine ⟨?_, ?_, ?_, ?_, ?_⟩
    · rw [List.nodup_append]
      exact ⟨hnd, List.nodup_singleton id, by
        intro a ha hb
        simp only [List.mem_singleton] at hb
        subst hb
        exact hnotin ha⟩
    · intro x hx
      rw [List.mem_append, List.mem_singleton] at hx
      rcases hx with hx | rfl
      · exact hcat x hx
      · exact hid
    · exact List.Nodup.sublist (List.Sublist.map _ (List.filter_sublist _)) havnd
    · intro tz htz
      rw [List.mem_filter] at htz
      exact havmem tz htz.1
    · intro tz htz
      rw [List.mem_filter, List.mem_append, List.mem_singleton]
      constructor
      · rintro ⟨h1, h2⟩
        simp only [decide_eq_true_eq] at h2
        intro hc
        rcases hc with hc | hc
        · exact ((hiff tz htz).1 h1) hc
        · exact h2 hc
      · intro hc
        rw [not_or] at hc
        refine ⟨(hiff tz htz).2 hc.1, by simp [hc.2]⟩
  | remove id =>
    rw [preZ] at hpre
    have hpre : id ∈ st.active := by simpa using hpre
    have hid : id ∈ catalogIds := hcat id hpre
    obtain ⟨tzF, hfind, hfid, hftz, huniq⟩ := catalog_find id hid
    simp only [stepZ, removeTimezone, hfind, Option.toList_some]
    refine ⟨?_, ?_, ?_, ?_, ?_⟩
    · exact List.Nodup.filter _ hnd
    · intro x hx
      rw [List.mem_filter] at hx
      exact hcat x hx.1
    · rw [List.map_append, List.map_singleton, List.nodup_append]
      refine ⟨havnd, List.nodup_singleton _, ?_⟩
      intro a ha hb
      rw [List.mem_singleton] at hb
      subst hb
      rw [List.mem_map] at ha
      obtain ⟨tz', htz', hid'⟩ := ha
      have := (hiff tz' (havmem tz' htz')).1 htz'
      rw [hid', hfid] at this
      exact this hpre
    · intro tz htz
      rw [List.mem_append, List.mem_singleton] at htz
      rcases htz with htz | rfl
      · exact havmem tz htz
      · exact hftz
    · intro tz htz
      rw [List.mem_append, List.mem_singleton]
      constructor
      · intro hc hmem
        rw [List.mem_filter, decide_eq_true_eq] at hmem
        rcases hc with hc | rfl
        · exact ((hiff tz htz).1 hc) hmem.1
        · exact hmem.2 hfid
      · intro hc
        rw [List.mem_filter] at hc
        by_cases hzid : tz.id = id
        · right; exact huniq tz htz hzid
        · left
          refine (hiff tz htz).2 ?_
          intro hmem
          exact hc ⟨hmem, by simpa using hzid⟩
  | move i j =>
    simp only [preZ, Bool.and_eq_true, decide_eq_true_eq] at hpre
    obtain ⟨hi, hj⟩ := hpre
    have hperm := moveItem_perm st.active i j hi (by omega)
    simp only [stepZ, onDragEnd]
    refine ⟨hperm.symm.nodup hnd, ?_, havnd, havmem, ?_⟩
    · intro x hx
      exact hcat x (hperm.mem_iff.1 hx)
    · intro tz htz
      rw [hperm.mem_iff]
      exact hiff tz htz
  | reverse =>
    simp only [stepZ, reverseOrder]
    refine ⟨by simpa using hnd, ?_, havnd, havmem, ?_⟩
    · intro x hx
      rw [List.mem_reverse] at hx
      exact hcat x hx
    · intro tz htz
      rw [List.mem_reverse]
      exact hiff tz htz

theorem ZInv_run : ∀ (trs : List ZTrans) (st : ZoneState), ZInv st → preAllZ st trs = true →
    ZInv (runZ st trs) := by
  intro trs
  induction trs with
  | nil => intro st h _; exact h
  | cons tr trs ih =>
    intro st h hp
    rw [preAllZ, Bool.and_eq_true] at hp
    exact ih _ (ZInv_step st tr h hp.1) hp.2

/-! ### Success of the decode branch implies a truthy time member -/

theorem decodeState_ok_truthy : ∀ (tok : String) (d : DecodedState),
    decodeState tok = Except.ok d → truthyJ d.time = true := by
  intro tok d h
  unfold decodeState at h
  repeat' split at h
  all_goals first
    | (injection h with h2; subst h2; assumption)
    | (injection h)

/-! ## The claims -/

/-- Claim C1: for every well-formed share state whose zone ids are drawn from
the catalog without duplicates and whose instant is a valid time value,
decoding the token produced by encoding yields the state back: the decoded
zone list is the encoded one element for element, and the decoded time member
parses back to the exact encoded instant. -/
theorem claim_C1 (s : ShareState) (tok : String)
    (hcat : ∀ z ∈ s.timezones, z ∈ catalogIds)
    (hnd : s.timezones.Nodup)
    (hlo : -8640000000000000 ≤ s.time) (hhi : s.time ≤ 8640000000000000)
    (henc : encodeShareState s = some tok) :
    decodeState tok = Except.ok
      ⟨JVal.jstr (toISOString s.time), s.timezones.map fun z => JVal.jstr z.toList⟩ ∧
    dateFromJVal (JVal.jstr (toISOString s.time)) = some s.time := by
  have hz : ∀ z ∈ s.timezones, ∀ c ∈ z.toList, plainChar c = true :=
    fun z hzm => catalogIds_plain z (hcat z hzm)
  rw [encodeShareState_eq s hz] at henc
  injection henc with henc
  subst henc
  constructor
  · have hzl : ∀ z ∈ s.timezones.map String.toList, ∀ c ∈ z, plainChar c = true := by
      intro z hzm
      rw [List.mem_map] at hzm
      obtain ⟨w, hw, rfl⟩ := hzm
      exact hz w hw
    rw [decodeState_stringify (toISOString s.time) (s.timezones.map String.toList)
      (toISOString_plain s.time) hzl (toISOString_ne_nil s.time)]
    simp [List.map_map, Function.comp]
  · exact parseISODate_toISOString s.time hlo hhi

/-- Witness for C1 at the state with instant 0 and zones `[UTC, IST]`. -/
theorem claim_C1_witness :
    decodeState
      "eyJ0aW1lIjoiMTk3MC0wMS0wMVQwMDowMDowMC4wMDBaIiwidGltZXpvbmVzIjpbIlVUQyIsIklTVCJdfQ==" =
      Except.ok ⟨JVal.jstr (toISOString 0),
        (["UTC", "IST"] : List String).map fun z => JVal.jstr z.toList⟩ ∧
    dateFromJVal (JVal.jstr (toISOString 0)) = some 0 :=
  claim_C1 ⟨0, ["UTC", "IST"]⟩
    "eyJ0aW1lIjoiMTk3MC0wMS0wMVQwMDowMDowMC4wMDBaIiwidGltZXpvbmVzIjpbIlVUQyIsIklTVCJdfQ=="
    (by decide) (by decide) (by decide) (by decide) (by rfl)

/-- Claim C2: for every instant, every browser offset and every catalog zone
offset (fractional hours included), the wall clock displayed for the
converted date exceeds the instant by exactly the zone offset in
milliseconds; the browser offset cancels, so the reading depends on nothing
but the instant and the zone offset. -/
theorem claim_C2 (t localOffMin : Int) (o : ℚ) :
    displayedWallClock (getTimeInTimezone t localOffMin o) localOffMin - t = o * 3600000 := by
  rw [displayedWallClock, getTimeInTimezone]
  push_cast
  ring

/-- Counterexample to C3 as stated: a token whose `time` member is the
string `garbage`, which parses to no valid time value, is accepted by the
decode branch rather than rejected. -/
theorem claim_C3_counterexample :
    decodeState "eyJ0aW1lIjoiZ2FyYmFnZSIsInRpbWV6b25lcyI6W119" =
      Except.ok ⟨JVal.jstr "garbage".toList, ([] : List JVal)⟩ ∧
    dateFromJVal (JVal.jstr "garbage".toList) = none := by
  constructor <;> rfl

/-- Claim C3 (amended): the decode branch raises a distinguishable error for
each failure it does detect - a non-base64 token, undecodable text, a JSON
`null`, and a missing or falsy `time` member or non-array `timezones`
member - and the only check applied to the `time` member of an accepted
token is truthiness: a token whose instant does not parse to a valid time
value, or whose zone list holds non-string elements, is accepted. -/
theorem claim_C3 :
    (∀ (tok : String) (d : DecodedState),
      decodeState tok = Except.ok d → truthyJ d.time = true) ∧
    decodeState "not-base64!!" = Except.error DecodeError.invalidCharacter ∧
    decodeState "eA==" = Except.error DecodeError.syntaxError ∧
    decodeState "bnVsbA==" = Except.error DecodeError.typeError ∧
    decodeState "eyJ0aW1lIjoiMjAyNC0wMS0wMVQwMDowMDowMC4wMDBaIn0=" =
      Except.error DecodeError.invalidStateFormat ∧
    decodeState "eyJ0aW1lIjoiMjAyNC0wMS0wMVQwMDowMDowMC4wMDBaIiwidGltZXpvbmVzIjpbMV19" =
      Except.ok ⟨JVal.jstr "2024-01-01T00:00:00.000Z".toList, [JVal.jnum 1]⟩ := by
  refine ⟨decodeState_ok_truthy, rfl, rfl, rfl, rfl, rfl⟩

/-- Witness for the universally quantified part of C3 (amended), at the
token holding an unparseable instant. -/
theorem claim_C3_witness :
    truthyJ (JVal.jstr "garbage".toList) = true :=
  claim_C3.1 "eyJ0aW1lIjoiZ2FyYmFnZSIsInRpbWV6b25lcyI6W119"
    ⟨JVal.jstr "garbage".toList, ([] : List JVal)⟩ (by rfl)

/-- Claim C4: encoding is deterministic, and the produced token is URL-safe:
every character is an ASCII alphanumeric or `=`, and
`application/x-www-form-urlencoded` value decoding returns the token
verbatim, so it needs no escaping as a query value. -/
theorem claim_C4 (s : ShareState) (tok : String)
    (hz : ∀ z ∈ s.timezones, ∀ c ∈ z.toList, plainChar c = true)
    (henc : encodeShareState s = some tok) :
    (∀ tok2, encodeShareState s = some tok2 → tok2 = tok) ∧
    (∀ c ∈ tok.toList, urlSafeChar c = true) ∧
    urlDecodeValue tok.toList = tok.toList := by
  have heq := encodeShareState_eq s hz
  rw [heq] at henc
  injection henc with henc
  subst henc
  have hzl : ∀ z ∈ s.timezones.map String.toList, ∀ c ∈ z, plainChar c = true := by
    intro z hzm
    rw [List.mem_map] at hzm
    obtain ⟨w, hw, rfl⟩ := hzm
    exact hz w hw
  have hsafe := stringify_safe (toISOString s.time) (s.timezones.map String.toList)
    (toISOString_plain s.time) hzl
  have hbytes : ∀ b ∈ (stringifyStateJson (toISOString s.time)
      (s.timezones.map String.toList)).map Char.toNat,
      b < 128 ∧ b ≠ 62 ∧ b ≠ 63 ∧ b ≠ 126 ∧ b ≠ 127 := by
    intro b hb
    rw [List.mem_map] at hb
    obtain ⟨c', hc', rfl⟩ := hb
    have := safeByteChar_spec c' (hsafe c' hc')
    omega
  refine ⟨?_, ?_, ?_⟩
  · intro tok2 h2
    rw [heq] at h2
    injection h2 with h2
    exact h2.symm
  · intro c hc
    exact encodeB64_urlSafe _ hbytes c hc
  · apply urlDecodeValue_id
    intro c hc
    exact urlSafeChar_not_special c (encodeB64_urlSafe _ hbytes c hc)

/-- Witness for C4 at the state with instant 0 and zones `[UTC, IST]`. -/
theorem claim_C4_witness :
    (∀ tok2, encodeShareState ⟨0, ["UTC", "IST"]⟩ = some tok2 →
      tok2 =
        "eyJ0aW1lIjoiMTk3MC0wMS0wMVQwMDowMDowMC4wMDBaIiwidGltZXpvbmVzIjpbIlVUQyIsIklTVCJdfQ==") ∧
    (∀ c ∈ ("eyJ0aW1lIjoiMTk3MC0wMS0wMVQwMDowMDowMC4wMDBaIiwidGltZXpvbmVzIjpbIlVUQyIsIklTVCJdfQ==" : String).toList,
      urlSafeChar c = true) ∧
    urlDecodeValue
      ("eyJ0aW1lIjoiMTk3MC0wMS0wMVQwMDowMDowMC4wMDBaIiwidGltZXpvbmVzIjpbIlVUQyIsIklTVCJdfQ==" : String).toList =
      ("eyJ0aW1lIjoiMTk3MC0wMS0wMVQwMDowMDowMC4wMDBaIiwidGltZXpvbmVzIjpbIlVUQyIsIklTVCJdfQ==" : String).toList :=
  claim_C4 ⟨0, ["UTC", "IST"]⟩
    "eyJ0aW1lIjoiMTk3MC0wMS0wMVQwMDowMDowMC4wMDBaIiwidGltZXpvbmVzIjpbIlVUQyIsIklTVCJdfQ=="
    (by decide) (by rfl)

/-- Claim C5: a present but undecodable token never corrupts the state: the
mount effect installs exactly the default state - the mount instant and the
zone order `[UTC, IST]` - and surfaces the advisory message; no partial or
invalid state is installed. -/
theorem claim_C5 (tok : String) (now : Int) (e : DecodeError)
    (hne : tok ≠ "") (hfail : decodeState tok = Except.error e) :
    loadFromURL (some tok) now = (initialAppState now, some decodeErrorMessage) ∧
    (initialAppState now).selectedTime = some now ∧
    (initialAppState now).activeTimezones =
      [JVal.jstr "UTC".toList, JVal.jstr "IST".toList] := by
  refine ⟨?_, rfl, rfl⟩
  simp only [loadFromURL, if_neg hne, hfail]

/-- Witness for C5 at a non-base64 token. -/
theorem claim_C5_witness :
    loadFromURL (some "not-base64!!") 0 = (initialAppState 0, some decodeErrorMessage) ∧
    (initialAppState 0).selectedTime = some 0 ∧
    (initialAppState 0).activeTimezones =
      [JVal.jstr "UTC".toList, JVal.jstr "IST".toList] :=
  claim_C5 "not-base64!!" 0 DecodeError.invalidCharacter (by decide) (by rfl)

/-- Counterexample to C6 as stated: adding an id that is already active is
neither a no-op nor rejected - `addTimezone` appends unconditionally, so one
add of `UTC` from the initial state yields the duplicated active list
`[UTC, IST, UTC]` and breaks the invariant. -/
theorem claim_C6_counterexample :
    (stepZ initialZoneState (ZTrans.add "UTC")).active = ["UTC", "IST", "UTC"] ∧
    ¬ (stepZ initialZoneState (ZTrans.add "UTC")).active.Nodup ∧
    ¬ ZInv (stepZ initialZoneState (ZTrans.add "UTC")) := by
  refine ⟨rfl, by decide, by decide⟩

/-- Claim C6 (amended): along every transition sequence from the initial
state in which each step respects its precondition - adding only inactive
catalog ids, removing only active ids, moving only between in-range
indices - the active list stays duplicate-free with all ids in the catalog,
and the available list holds exactly the catalog entries whose id is not
active; the preconditions are necessary: `addTimezone` alone appends an
already-active id verbatim. -/
theorem claim_C6 (trs : List ZTrans) (hpre : preAllZ initialZoneState trs = true) :
    ZInv (runZ initialZoneState trs) :=
  ZInv_run trs initialZoneState ZInv_init hpre

/-- Witness for C6 (amended) on a four-step sequence exercising all four
transition kinds. -/
theorem claim_C6_witness :
    preAllZ initialZoneState
      [ZTrans.add "EST", ZTrans.remove "UTC", ZTrans.move 0 1, ZTrans.reverse] = true ∧
    ZInv (runZ initialZoneState
      [ZTrans.add "EST", ZTrans.remove "UTC", ZTrans.move 0 1, ZTrans.reverse]) :=
  ⟨by decide, claim_C6 [ZTrans.add "EST", ZTrans.remove "UTC", ZTrans.move 0 1,
    ZTrans.reverse] (by decide)⟩

/-- Claim C7: every token that passes the structural checks - truthy `time`
member and array `timezones` member - is accepted, and the decoded zone list
is installed verbatim as the active list with no catalog or duplicate
validation: witnessed by a token whose zone list holds the unknown id `XXX`
twice. -/
theorem claim_C7 (tok : String) (d : DecodedState) (now : Int)
    (h : decodeState tok = Except.ok d) :
    loadFromURL (some tok) now =
      ({ selectedTime := dateFromJVal d.time,
         activeTimezones := d.timezones,
         availableTimezones := timezones.filter fun tz => !(jincludesId d.timezones tz.id) },
       none) ∧
    decodeState
      "eyJ0aW1lIjoiMjAyNC0wMS0wMVQwMDowMDowMC4wMDBaIiwidGltZXpvbmVzIjpbIlhYWCIsIlhYWCJdfQ==" =
      Except.ok ⟨JVal.jstr "2024-01-01T00:00:00.000Z".toList,
        [JVal.jstr "XXX".toList, JVal.jstr "XXX".toList]⟩ ∧
    "XXX" ∉ catalogIds ∧
    ¬ ([JVal.jstr "XXX".toList, JVal.jstr "XXX".toList] : List JVal).Nodup := by
  have hne : tok ≠ "" := by
    rintro rfl
    rw [show decodeState "" = Except.error DecodeError.syntaxError from rfl] at h
    exact absurd h (by simp)
  refine ⟨?_, rfl, by decide, ?_⟩
  · simp only [loadFromURL, if_neg hne, h]
  · intro hnd
    exact (List.nodup_cons.mp hnd).1 (List.mem_cons_self _ _)

/-- Witness for C7 at the duplicated unknown-id token. -/
theorem claim_C7_witness :
    loadFromURL (some
      "eyJ0aW1lIjoiMjAyNC0wMS0wMVQwMDowMDowMC4wMDBaIiwidGltZXpvbmVzIjpbIlhYWCIsIlhYWCJdfQ==") 0 =
      ({ selectedTime := dateFromJVal (JVal.jstr "2024-01-01T00:00:00.000Z".toList),
         activeTimezones := [JVal.jstr "XXX".toList, JVal.jstr "XXX".toList],
         availableTimezones := timezones.filter fun tz =>
           !(jincludesId [JVal.jstr "XXX".toList, JVal.jstr "XXX".toList] tz.id) },
       none) ∧
    decodeState
      "eyJ0aW1lIjoiMjAyNC0wMS0wMVQwMDowMDowMC4wMDBaIiwidGltZXpvbmVzIjpbIlhYWCIsIlhYWCJdfQ==" =
      Except.ok ⟨JVal.jstr "2024-01-01T00:00:00.000Z".toList,
        [JVal.jstr "XXX".toList, JVal.jstr "XXX".toList]⟩ ∧
    "XXX" ∉ catalogIds ∧
    ¬ ([JVal.jstr "XXX".toList, JVal.jstr "XXX".toList] : List JVal).Nodup :=
  claim_C7
    "eyJ0aW1lIjoiMjAyNC0wMS0wMVQwMDowMDowMC4wMDBaIiwidGltZXpvbmVzIjpbIlhYWCIsIlhYWCJdfQ=="
    ⟨JVal.jstr "2024-01-01T00:00:00.000Z".toList,
      [JVal.jstr "XXX".toList, JVal.jstr "XXX".toList]⟩ 0 (by rfl)

/-- Claim C8: for valid indices the drag handler's relocation is a
permutation - no element lost or duplicated, length preserved - the moved
element lands at the destination index, and moving the first of
`[UTC, IST, EST]` to the last position yields `[IST, EST, UTC]`. -/
theorem claim_C8 (st : ZoneState) (i j : Nat)
    (hi : i < st.active.length) (hj : j < st.active.length) :
    ((onDragEnd st ⟨i, some j⟩).active).Perm st.active ∧
    (onDragEnd st ⟨i, some j⟩).active.length = st.active.length ∧
    (∀ x, st.active.get? i = some x → (onDragEnd st ⟨i, some j⟩).active.get? j = some x) ∧
    (onDragEnd ⟨["UTC", "IST", "EST"], []⟩ ⟨0, some 2⟩).active = ["IST", "EST", "UTC"] := by
  have hperm := moveItem_perm st.active i j hi (by omega)
  refine ⟨hperm, hperm.length_eq, ?_, by decide⟩
  intro x hx
  simp only [onDragEnd, moveItem, hx]
  have hel : (st.active.eraseIdx i).length = st.active.length - 1 := by
    rw [List.length_eraseIdx]
    simp [hi]
  have hjm : j ≤ (st.active.eraseIdx i).length := by omega
  have hlen : ((st.active.eraseIdx i).insertIdx j x).length =
      (st.active.eraseIdx i).length + 1 := List.length_insertIdx j _ hjm
  rw [List.get?_eq_getElem?, List.getElem?_eq_getElem (by omega)]
  exact congrArg some (List.getElem_insertIdx_self _ x j hjm)

/-- Witness for C8 on the initial active list. -/
theorem claim_C8_witness :
    ((onDragEnd initialZoneState ⟨0, some 1⟩).active).Perm initialZoneState.active ∧
    (onDragEnd initialZoneState ⟨0, some 1⟩).active.length =
      initialZoneState.active.length ∧
    (∀ x, initialZoneState.active.get? 0 = some x →
      (onDragEnd initialZoneState ⟨0, some 1⟩).active.get? 1 = some x) ∧
    (onDragEnd ⟨["UTC", "IST", "EST"], []⟩ ⟨0, some 2⟩).active = ["IST", "EST", "UTC"] :=
  claim_C8 initialZoneState 0 1 (by decide) (by decide)

/-- Claim C9: adding an id not already active and then removing it returns
the active list to exactly its prior value, element for element. -/
theorem claim_C9 (st : ZoneState) (id : String) (hnotin : id ∉ st.active) :
    (removeTimezone (addTimezone st id) id).active = st.active := by
  have hfilter : st.active.filter (fun x => x ≠ id) = st.active := by
    apply List.filter_eq_self.2
    intro a ha
    simp only [ne_eq, decide_not, Bool.not_eq_eq_eq_not, Bool.not_true, decide_eq_false_iff_not]
    rintro rfl
    exact hnotin ha
  by_cases hne : id = ""
  · subst hne
    rw [addTimezone, if_neg (by simp)]
    exact hfilter
  · rw [addTimezone, if_pos hne, removeTimezone]
    show ((st.active ++ [id]).filter fun x => x ≠ id) = st.active
    rw [List.filter_append, hfilter]
    simp

/-- Witness for C9 adding and removing `EST` over the initial state. -/
theorem claim_C9_witness :
    (removeTimezone (addTimezone initialZoneState "EST") "EST").active =
      initialZoneState.active :=
  claim_C9 initialZoneState "EST" (by decide)

/-- Claim C10: the slider handler stores the slider value and adds the event
value in minutes, as milliseconds, to the previously selected instant; two
successive events therefore accumulate both their full values. -/
theorem claim_C10 (st : TimeSliderState) (v v2 : Int) :
    (handleSliderChange st v).selectedTime = st.selectedTime + v * 60000 ∧
    (handleSliderChange st v).sliderValue = v ∧
    (handleSliderChange (handleSliderChange st v) v2).selectedTime =
      st.selectedTime + v * 60000 + v2 * 60000 :=
  ⟨rfl, rfl, rfl⟩
